import Mathlib

/-!
The sequentialthinking plugin: thought ledger and thought processor.

A shallow embedding of `examples/plugins/sequentialthinking/main.go`.

* The two package-level variables `thoughtHistory` and `branches` become the
  fields of an explicit `Ledger` that every operation receives and returns.
* `map[string]interface{}` (the decoded JSON arguments) becomes an association
  list from keys to `JVal`; indexing a missing key yields the nil interface,
  which is `none` here.
* Go pointers to optional fields (`*bool`, `*int`, `*string`) become `Option`.
* `int` is `Int`; a `float64` that comes out of a JSON document is finite and
  is kept as the rational number it denotes.
-/

namespace SequentialThinking

/-! ## Decoded JSON values -/

/-- A value held in an `interface{}` after JSON decoding. Numbers are `float64`
in Go; every finite `float64` is a rational and is kept as that rational. -/
inductive JVal where
  | null
  | bool (b : Bool)
  | num (x : Rat)
  | str (s : String)
  | arr (xs : List JVal)
  | obj (kvs : List (String × JVal))

/-- The argument bag `map[string]interface{}`. -/
abbrev Args := List (String × JVal)

/-- Indexing `args[key]`: the stored value, or the nil interface (`none`) when the
key is missing. -/
def Args.index (args : Args) (key : String) : Option JVal :=
  args.lookup key

/-- The type assertion `v.(string)` in its two-result form: `some s` when `ok`. -/
def assertString : Option JVal → Option String
  | some (JVal.str s) => some s
  | _ => none

/-- The type assertion `v.(float64)` in its two-result form. -/
def assertFloat64 : Option JVal → Option Rat
  | some (JVal.num x) => some x
  | _ => none

/-- The type assertion `v.(bool)` in its two-result form. -/
def assertBool : Option JVal → Option Bool
  | some (JVal.bool b) => some b
  | _ => none

/-- The conversion `int(x)` of a `float64`: the fraction is discarded (truncation
towards zero). Go leaves the result implementation-defined when the truncated
value does not fit the platform `int`; the embedding keeps the exact integer. -/
def goInt (x : Rat) : Int :=
  Int.tdiv x.num x.den

/-! ## Data model -/

/-- The struct `ThoughtData`. -/
structure ThoughtData where
  Thought : String
  ThoughtNumber : Int
  TotalThoughts : Int
  NextThoughtNeeded : Bool
  IsRevision : Option Bool
  RevisesThought : Option Int
  BranchFromThought : Option Int
  BranchId : Option String
  NeedsMoreThoughts : Option Bool
  deriving DecidableEq, Repr

/-- The zero value `ThoughtData{}`. -/
def ThoughtData.zero : ThoughtData :=
  { Thought := "", ThoughtNumber := 0, TotalThoughts := 0, NextThoughtNeeded := false,
    IsRevision := none, RevisesThought := none, BranchFromThought := none,
    BranchId := none, NeedsMoreThoughts := none }

/-- The map `map[string][]ThoughtData`, as an association list. -/
abbrev BranchMap := List (String × List ThoughtData)

/-- Reading `branches[key]`: the bucket, or the nil slice when the key is missing. -/
def BranchMap.index (m : BranchMap) (key : String) : List ThoughtData :=
  (m.lookup key).getD []

/-- The assignment `branches[key] = bucket`: an existing entry is overwritten in
place, a missing key is added. -/
def BranchMap.assign (m : BranchMap) (key : String) (bucket : List ThoughtData) : BranchMap :=
  if (m.lookup key).isSome then
    m.map (fun kv => if kv.1 = key then (kv.1, bucket) else kv)
  else
    m ++ [(key, bucket)]

/-- The package-level state: `thoughtHistory` and `branches`. -/
structure Ledger where
  thoughtHistory : List ThoughtData
  branches : BranchMap
  deriving DecidableEq, Repr

/-- The state set up by `init`. -/
def Ledger.init : Ledger :=
  { thoughtHistory := [], branches := [] }

/-! ## Result types of the host boundary -/

/-- Modelled from the spec: the declaration of `ContentType` is not among the
sources; the plugin only ever uses the constant `ContentTypeText` ("a single text
block"). -/
inductive ContentType where
  | ContentTypeText
  deriving DecidableEq, Repr

/-- Modelled from the spec: the declaration of `Content` is not among the
sources; the fields are the two that the plugin's composite literals set (the
field `Type` is written `Typ`, the former being reserved). -/
structure Content where
  Typ : ContentType
  Text : Option String
  deriving DecidableEq, Repr

/-- Modelled from the spec: the declaration of `CallToolResult` is not among the
sources; an error payload has the error flag set, a success payload leaves it
unset, and both carry a list of content blocks. -/
structure CallToolResult where
  IsError : Option Bool
  Content : List Content
  deriving DecidableEq, Repr

/-! ## Validation -/

/-- The function `validateThoughtData`: the record built so far together with the
error (`none` is Go's `nil`). -/
def validateThoughtData (args : Args) : ThoughtData × Option String :=
  let data := ThoughtData.zero
  -- Required fields
  match assertString (args.index "thought") with
  | none => (data, some "invalid thought: must be a string")
  | some thought =>
    if thought = "" then (data, some "invalid thought: must be a string") else
    let data := { data with Thought := thought }
    match assertFloat64 (args.index "thoughtNumber") with
    | none => (data, some "invalid thoughtNumber: must be a number")
    | some thoughtNumber =>
      let data := { data with ThoughtNumber := goInt thoughtNumber }
      match assertFloat64 (args.index "totalThoughts") with
      | none => (data, some "invalid totalThoughts: must be a number")
      | some totalThoughts =>
        let data := { data with TotalThoughts := goInt totalThoughts }
        match assertBool (args.index "nextThoughtNeeded") with
        | none => (data, some "invalid nextThoughtNeeded: must be a boolean")
        | some nextThoughtNeeded =>
          let data := { data with NextThoughtNeeded := nextThoughtNeeded }
          -- Optional fields
          let data := match assertBool (args.index "isRevision") with
            | some isRevision => { data with IsRevision := some isRevision }
            | none => data
          let data := match assertFloat64 (args.index "revisesThought") with
            | some revisesThought => { data with RevisesThought := some (goInt revisesThought) }
            | none => data
          let data := match assertFloat64 (args.index "branchFromThought") with
            | some branchFromThought =>
              { data with BranchFromThought := some (goInt branchFromThought) }
            | none => data
          let data := match assertString (args.index "branchId") with
            | some branchId => { data with BranchId := some branchId }
            | none => data
          let data := match assertBool (args.index "needsMoreThoughts") with
            | some needsMoreThoughts => { data with NeedsMoreThoughts := some needsMoreThoughts }
            | none => data
          (data, none)

/-! ## Rendering -/

/-- The function `formatThought`. `%d` prints an `int` in decimal, `%s` a string
as it is. (The local `prefix` is written `pfx`, the former being reserved.) -/
def formatThought (thoughtData : ThoughtData) : String :=
  let (pfx, context) :=
    if thoughtData.IsRevision = some true then
      ("🔄 Revision",
        match thoughtData.RevisesThought with
        | some revisesThought => " (revising thought " ++ toString revisesThought ++ ")"
        | none => "")
    else
      match thoughtData.BranchFromThought with
      | some branchFromThought =>
        let branchId := match thoughtData.BranchId with
          | some b => b
          | none => ""
        ("🌿 Branch",
          " (from thought " ++ toString branchFromThought ++ ", ID: " ++ branchId ++ ")")
      | none => ("💭 Thought", "")
  let header := pfx ++ " " ++ toString thoughtData.ThoughtNumber ++ "/" ++
    toString thoughtData.TotalThoughts ++ context
  "\n=== " ++ header ++ " ===\n" ++ thoughtData.Thought ++ "\n================"

/-- The function `getBranchNames` when the `range` over `branches` visits the keys
in the order of the association list. Go leaves the order of a `range` over a map
unspecified, so this is one of the lists the function may return;
`getBranchNamesIn` below takes the order as an argument. -/
def getBranchNames (branches : BranchMap) : List String :=
  branches.map Prod.fst

/-- An order in which a `range` over the map may visit its keys: any arrangement
of the keys, each key once. The order may change from one loop to the next, so
every call is free to use another one. -/
def IsRangeOrder (rangeKeys : BranchMap → List String) : Prop :=
  ∀ branches : BranchMap, (rangeKeys branches).Perm (branches.map Prod.fst)

/-- The function `getBranchNames` when the `range` over `branches` visits the keys
in the order `rangeKeys branches`: every key visited is appended to `names`. -/
def getBranchNamesIn (rangeKeys : BranchMap → List String) (branches : BranchMap) :
    List String :=
  (rangeKeys branches).foldl (fun names name => names ++ [name]) []

/-! ## The JSON encoder, as far as the response map needs it -/

/-- A value stored in the response map `map[string]interface{}`: an `int`, a
`bool` or a `[]string`. -/
inductive RespVal where
  | int (n : Int)
  | bool (b : Bool)
  | strings (xs : List String)
  deriving DecidableEq, Repr

/-- The response map, as an association list. -/
abbrev ResponseData := List (String × RespVal)

/-- One lower-case hexadecimal digit. -/
def hexDigit (n : Nat) : Char :=
  "0123456789abcdef".toList.getD n '0'

/-- How `encoding/json` writes one character inside a string literal (HTML
escaping on, as `json.MarshalIndent` has it). Backspace and form feed are written
in the short form of Go 1.22 and later; earlier releases write the six-character
form for them. -/
def jsonEscapeChar (c : Char) : String :=
  if c = '"' then "\\\""
  else if c = '\\' then "\\\\"
  else if c = '\x08' then "\\b"
  else if c = '\x0c' then "\\f"
  else if c = '\n' then "\\n"
  else if c = '\r' then "\\r"
  else if c = '\t' then "\\t"
  else if c.toNat < 0x20 ∨ c = '<' ∨ c = '>' ∨ c = '&' then
    "\\u00" ++ String.singleton (hexDigit (c.toNat / 16)) ++
      String.singleton (hexDigit (c.toNat % 16))
  else if c.toNat = 0x2028 then "\\u2028"
  else if c.toNat = 0x2029 then "\\u2029"
  else String.singleton c

/-- A JSON string literal. -/
def jsonString (s : String) : String :=
  "\"" ++ String.join (s.toList.map jsonEscapeChar) ++ "\""

/-- Lexicographic comparison of two keys, character code by character code (the
order in which `encoding/json` writes the keys of a map). -/
def keyLe : List Char → List Char → Bool
  | [], _ => true
  | _ :: _, [] => false
  | a :: as, b :: bs =>
    if a.toNat < b.toNat then true
    else if b.toNat < a.toNat then false
    else keyLe as bs

/-- Insertion of one entry into a key-sorted list. -/
def insertByKey (kv : String × RespVal) : ResponseData → ResponseData
  | [] => [kv]
  | x :: xs =>
    if keyLe kv.1.toList x.1.toList then kv :: x :: xs else x :: insertByKey kv xs

/-- The entries of a map in key order. -/
def sortByKey : ResponseData → ResponseData
  | [] => []
  | x :: xs => insertByKey x (sortByKey xs)

/-- The encoding of one value of the response map at nesting depth one, with the
two-space indent. -/
def marshalValue : RespVal → String
  | RespVal.int n => toString n
  | RespVal.bool b => if b then "true" else "false"
  | RespVal.strings [] => "[]"
  | RespVal.strings (x :: xs) =>
    "[\n" ++ ",\n".intercalate ((x :: xs).map (fun s => "    " ++ jsonString s)) ++ "\n  ]"

/-- The call `json.MarshalIndent(responseData, "", "  ")` on a response map: keys
in sorted order, one entry per line. Encoding integers, booleans and string
slices cannot fail, so the result is always `Except.ok`. -/
def marshalIndent (responseData : ResponseData) : Except String String :=
  match sortByKey responseData with
  | [] => Except.ok "\x7b\x7d"
  | kvs =>
    Except.ok ("\x7b\n" ++
      ",\n".intercalate (kvs.map (fun kv => "  " ++ jsonString kv.1 ++ ": " ++ marshalValue kv.2))
      ++ "\n\x7d")

/-! ## The processor -/

/-- What one call leaves behind: the ledger after the call, the two values the Go
function returns (the result and the `error`, `none` being `nil`) and the lines
handed to `pdk.Log`. -/
structure Outcome where
  ledger : Ledger
  result : CallToolResult
  err : Option String
  logged : List String
  deriving DecidableEq, Repr

/-- The function `processThought`, run on the ledger `L`, when the `range` inside
`getBranchNames` visits the keys in the order `rangeKeys`. -/
def processThoughtIn (rangeKeys : BranchMap → List String) (L : Ledger) (args : Args) :
    Outcome :=
  -- Validate input
  match validateThoughtData args with
  | (_, some err) =>
    { ledger := L
      result :=
        { IsError := some true
          Content := [{ Typ := ContentType.ContentTypeText, Text := some ("Error: " ++ err) }] }
      err := none
      logged := [] }
  | (thoughtData, none) =>
    -- Adjust total thoughts if current thought number exceeds it
    let thoughtData :=
      if thoughtData.ThoughtNumber > thoughtData.TotalThoughts then
        { thoughtData with TotalThoughts := thoughtData.ThoughtNumber }
      else thoughtData
    -- Add to thought history
    let thoughtHistory := L.thoughtHistory ++ [thoughtData]
    -- Handle branching. The test `branches[id] == nil` reads a missing key as the
    -- nil slice; lists do not tell a nil slice from an empty one, and storing an
    -- empty bucket where an empty one already is changes nothing.
    let branches :=
      match thoughtData.BranchFromThought, thoughtData.BranchId with
      | some _, some branchId =>
        let branches :=
          if (L.branches.index branchId).isEmpty then L.branches.assign branchId []
          else L.branches
        branches.assign branchId (branches.index branchId ++ [thoughtData])
      | _, _ => L.branches
    -- Format thought for display and log it
    let formattedThought := formatThought thoughtData
    -- Prepare response data
    let responseData : ResponseData :=
      [ ("thoughtNumber", RespVal.int thoughtData.ThoughtNumber),
        ("totalThoughts", RespVal.int thoughtData.TotalThoughts),
        ("nextThoughtNeeded", RespVal.bool thoughtData.NextThoughtNeeded),
        ("branches", RespVal.strings (getBranchNamesIn rangeKeys branches)),
        ("thoughtHistoryLength", RespVal.int thoughtHistory.length) ]
    match marshalIndent responseData with
    | Except.error e =>
      { ledger := { thoughtHistory := thoughtHistory, branches := branches }
        result :=
          { IsError := some true
            Content :=
              [{ Typ := ContentType.ContentTypeText
                 Text := some ("Failed to marshal response: " ++ e) }] }
        err := none
        logged := [formattedThought] }
    | Except.ok responseJSON =>
      { ledger := { thoughtHistory := thoughtHistory, branches := branches }
        result :=
          { IsError := none
            Content := [{ Typ := ContentType.ContentTypeText, Text := some responseJSON }] }
        err := none
        logged := [formattedThought] }

/-- The function `processThought`, run on the ledger `L`, with the keys visited
in the order of the association list. -/
def processThought (L : Ledger) (args : Args) : Outcome :=
  processThoughtIn getBranchNames L args

/-- The ledger after a sequence of calls, made one after the other. -/
def runCalls (L : Ledger) : List Args → Ledger
  | [] => L
  | args :: rest => runCalls (processThought L args).ledger rest

/-! ## The entry point -/

/-- The constant `SequentialThinkingTool.Name`. -/
def SequentialThinkingToolName : String :=
  "sequentialthinking"

/-- Modelled from the spec: the declaration of the request parameters is not among
the sources; `Call` reads the tool name and the arguments, the latter an
`interface{}` that holds the decoded JSON ("a tool name and a JSON object of
arguments"). -/
structure CallToolRequestParams where
  Name : String
  Arguments : JVal

/-- Modelled from the spec: the declaration of `CallToolRequest` is not among the
sources; `Call` reads its field `Params` only. -/
structure CallToolRequest where
  Params : CallToolRequestParams

/-- The function `Call`, run on the ledger `L`. The single-result assertion
`Arguments.(map[string]interface{})` panics when the arguments are not a map,
which is `none` here. `sprint` stands for the library function `fmt.Sprint`
applied to the argument map; the debug line is the first line logged. -/
def Call (sprint : Args → String) (L : Ledger) (input : CallToolRequest) : Option Outcome :=
  match input.Params.Arguments with
  | JVal.obj args =>
    let debugLine := "Args: " ++ sprint args
    if input.Params.Name = SequentialThinkingToolName then
      let o := processThought L args
      some { o with logged := debugLine :: o.logged }
    else
      some
        { ledger := L
          result :=
            { IsError := some true
              Content :=
                [{ Typ := ContentType.ContentTypeText
                   Text := some ("Unknown tool " ++ input.Params.Name) }] }
          err := none
          logged := [debugLine] }
  | _ => none

/-! ## Vocabulary of the specification

The definitions below are not translations of code: they put the words of the
specification into Lean, to be compared with the code above. -/

/-- Spec wording: the required field `thought` fails its check when it is absent,
not a string, or the empty string. -/
def thoughtFails (args : Args) : Prop :=
  args.index "thought" = none ∨ (∀ s, args.index "thought" ≠ some (JVal.str s)) ∨
    args.index "thought" = some (JVal.str "")

/-- Spec wording: a required numeric field fails when it is absent or not a number. -/
def numberFails (args : Args) (key : String) : Prop :=
  args.index key = none ∨ ∀ x, args.index key ≠ some (JVal.num x)

/-- Spec wording: a required boolean field fails when it is absent or not a boolean. -/
def booleanFails (args : Args) (key : String) : Prop :=
  args.index key = none ∨ ∀ b, args.index key ≠ some (JVal.bool b)

/-- Spec wording: at least one required field fails its check. -/
def requiredFieldFails (args : Args) : Prop :=
  thoughtFails args ∨ numberFails args "thoughtNumber" ∨ numberFails args "totalThoughts" ∨
    booleanFails args "nextThoughtNeeded"

/-- Spec wording: all four required fields are present and well-typed, with the
values named. -/
def RequiredAre (args : Args) (thought : String) (n t : Rat) (b : Bool) : Prop :=
  args.index "thought" = some (JVal.str thought) ∧ thought ≠ "" ∧
    args.index "thoughtNumber" = some (JVal.num n) ∧
    args.index "totalThoughts" = some (JVal.num t) ∧
    args.index "nextThoughtNeeded" = some (JVal.bool b)

/-- A call returned an error result: the error flag of the payload is set. -/
def Outcome.isErrorResult (o : Outcome) : Bool :=
  o.result.IsError == some true

/-- Normalization as the spec words it: the estimate is raised to the sequence
number when the latter exceeds it. -/
def normalize (record : ThoughtData) : ThoughtData :=
  { record with TotalThoughts := max record.TotalThoughts record.ThoughtNumber }

/-- The record a successful submission of `args` stores: the validated record,
normalized. -/
def recordOf (args : Args) : ThoughtData :=
  normalize (validateThoughtData args).1

/-- The ledger operation `appendToBranch(branchId, record)` of the spec: push the
record at the end of the bucket, an absent bucket counting as empty. -/
def appendToBranch (branches : BranchMap) (branchId : String) (record : ThoughtData) :
    BranchMap :=
  branches.assign branchId (branches.index branchId ++ [record])

/-- The record that validation builds when the four required fields hold the
values named: the optional fields are read off the argument map. -/
def builtRecord (args : Args) (thought : String) (n t : Rat) (b : Bool) : ThoughtData :=
  { Thought := thought, ThoughtNumber := goInt n, TotalThoughts := goInt t,
    NextThoughtNeeded := b,
    IsRevision := assertBool (args.index "isRevision"),
    RevisesThought := (assertFloat64 (args.index "revisesThought")).map goInt,
    BranchFromThought := (assertFloat64 (args.index "branchFromThought")).map goInt,
    BranchId := assertString (args.index "branchId"),
    NeedsMoreThoughts := assertBool (args.index "needsMoreThoughts") }

/-- The branches map after a record has been filed: it goes to its bucket when it
carries both branch fields, and nowhere otherwise. -/
def fileRecord (branches : BranchMap) (record : ThoughtData) : BranchMap :=
  match record.BranchFromThought, record.BranchId with
  | some _, some branchId => appendToBranch branches branchId record
  | _, _ => branches

/-- The summary of the spec: exactly five fields. -/
def summary (thoughtNumber totalThoughts : Int) (nextThoughtNeeded : Bool)
    (branchNames : List String) (thoughtHistoryLength : Nat) : ResponseData :=
  [ ("thoughtNumber", RespVal.int thoughtNumber),
    ("totalThoughts", RespVal.int totalThoughts),
    ("nextThoughtNeeded", RespVal.bool nextThoughtNeeded),
    ("branches", RespVal.strings branchNames),
    ("thoughtHistoryLength", RespVal.int thoughtHistoryLength) ]

/-- The text that `marshalIndent` produces. -/
def jsonText (responseData : ResponseData) : String :=
  match marshalIndent responseData with
  | Except.ok text => text
  | Except.error e => e

/-- A non-error payload with exactly one text block. -/
def successPayload (text : String) : CallToolResult :=
  { IsError := none, Content := [{ Typ := ContentType.ContentTypeText, Text := some text }] }

/-- The number of calls of a sequence that did not return an error result, the
calls being made one after the other from the ledger `L`. -/
def successCount (L : Ledger) : List Args → Nat
  | [] => 0
  | args :: rest =>
    (if (processThought L args).isErrorResult then 0 else 1) +
      successCount (processThought L args).ledger rest

/-- The argument map with one key removed. -/
def Args.remove (args : Args) (key : String) : Args :=
  args.filter (fun kv => kv.1 ≠ key)

/-- The JSON types the optional fields are declared with. -/
inductive FieldType where
  | boolean
  | number
  | string
  deriving DecidableEq, Repr

/-- Whether a decoded value has the given JSON type. -/
def JVal.hasType : JVal → FieldType → Bool
  | JVal.bool _, FieldType.boolean => true
  | JVal.num _, FieldType.number => true
  | JVal.str _, FieldType.string => true
  | _, _ => false

/-- The five optional fields with their types, as the spec lists them. -/
def optionalFields : List (String × FieldType) :=
  [ ("isRevision", FieldType.boolean), ("revisesThought", FieldType.number),
    ("branchFromThought", FieldType.number), ("branchId", FieldType.string),
    ("needsMoreThoughts", FieldType.boolean) ]

/-- Whether the optional field named `key` is set in a record. -/
def ThoughtData.hasOptional (record : ThoughtData) (key : String) : Bool :=
  if key = "isRevision" then record.IsRevision.isSome
  else if key = "revisesThought" then record.RevisesThought.isSome
  else if key = "branchFromThought" then record.BranchFromThought.isSome
  else if key = "branchId" then record.BranchId.isSome
  else if key = "needsMoreThoughts" then record.NeedsMoreThoughts.isSome
  else false

/-- The three classes of the spec. -/
inductive ThoughtClass where
  | Revision
  | Branch
  | Plain
  deriving DecidableEq, Repr

/-- Spec wording: Revision has `isRevision == true`; Branch has
`branchFromThought` set and `isRevision` not true; Plain is neither. -/
def classify (record : ThoughtData) : ThoughtClass :=
  if record.IsRevision = some true then ThoughtClass.Revision
  else if record.BranchFromThought.isSome then ThoughtClass.Branch
  else ThoughtClass.Plain

/-- The label text that the rendering shows for each class. -/
def ThoughtClass.label : ThoughtClass → String
  | ThoughtClass.Revision => "🔄 Revision"
  | ThoughtClass.Branch => "🌿 Branch"
  | ThoughtClass.Plain => "💭 Thought"

/-- Spec wording: the annotation is " (revising thought n)" for a Revision whose
`revisesThought` is n, " (from thought n, ID: b)" for a Branch (b empty when
`branchId` is absent), and empty for a Plain record and for a Revision without
`revisesThought`. -/
def annotation (record : ThoughtData) : String :=
  match classify record with
  | ThoughtClass.Revision =>
    match record.RevisesThought with
    | some n => " (revising thought " ++ toString n ++ ")"
    | none => ""
  | ThoughtClass.Branch =>
    match record.BranchFromThought with
    | some n => " (from thought " ++ toString n ++ ", ID: " ++ record.BranchId.getD "" ++ ")"
    | none => ""
  | ThoughtClass.Plain => ""

/-- Spec wording: the header line "{label} {thoughtNumber}/{totalThoughts}{annotation}". -/
def headerLine (record : ThoughtData) : String :=
  (classify record).label ++ " " ++ toString record.ThoughtNumber ++ "/" ++
    toString record.TotalThoughts ++ annotation record

/-- Whether the text `needle` occurs somewhere in `text`. -/
def occursIn (needle text : String) : Prop :=
  needle.toList <:+: text.toList

/-- An error payload: the error flag set and exactly one text block. -/
def errorPayload (text : String) : CallToolResult :=
  { IsError := some true, Content := [{ Typ := ContentType.ContentTypeText, Text := some text }] }

/-- A property holds of every record of a ledger: of every history entry and of
every record in every branch bucket. -/
def Ledger.AllRecords (P : ThoughtData → Prop) (L : Ledger) : Prop :=
  (∀ r ∈ L.thoughtHistory, P r) ∧ ∀ kv ∈ L.branches, ∀ r ∈ kv.2, P r

/-- The records of a history that have `branchFromThought` set and `branchId`
equal to `b`, in history order. -/
def filedUnder (history : List ThoughtData) (b : String) : List ThoughtData :=
  history.filter (fun r => r.BranchFromThought.isSome && r.BranchId == some b)

/-- The ledger invariant: the bucket under every key is the history filtered for
that key, and a key is known exactly when that filtered history is not empty. -/
def Ledger.BucketsMatchHistory (L : Ledger) : Prop :=
  ∀ b, L.branches.lookup b =
    if filedUnder L.thoughtHistory b = [] then none else some (filedUnder L.thoughtHistory b)

/-- Two argument maps hold the same value, or both none, under a key. -/
def agreeOn (args args' : Args) (key : String) : Prop :=
  args.index key = args'.index key

/-! ## Sample inputs -/

/-- The first submission of the end-to-end example. -/
def step1 : Args :=
  [ ("thought", JVal.str "step1"), ("thoughtNumber", JVal.num 1),
    ("totalThoughts", JVal.num 3), ("nextThoughtNeeded", JVal.bool true) ]

/-- The second submission of the end-to-end example. -/
def step2 : Args :=
  [ ("thought", JVal.str "step2"), ("thoughtNumber", JVal.num 5),
    ("totalThoughts", JVal.num 3), ("nextThoughtNeeded", JVal.bool false) ]

/-- A submission whose `thought` is the empty string. -/
def emptyThought : Args :=
  [ ("thought", JVal.str ""), ("thoughtNumber", JVal.num 1),
    ("totalThoughts", JVal.num 3), ("nextThoughtNeeded", JVal.bool true) ]

/-- A submission filed under branch "b1", forking from thought 2. -/
def branchB1 : Args :=
  [ ("thought", JVal.str "alt"), ("thoughtNumber", JVal.num 3),
    ("totalThoughts", JVal.num 4), ("nextThoughtNeeded", JVal.bool true),
    ("branchFromThought", JVal.num 2), ("branchId", JVal.str "b1") ]

/-- A submission with `branchId` but no `branchFromThought`. -/
def branchIdOnly : Args :=
  [ ("thought", JVal.str "alt"), ("thoughtNumber", JVal.num 3),
    ("totalThoughts", JVal.num 4), ("nextThoughtNeeded", JVal.bool true),
    ("isRevision", JVal.bool true), ("branchId", JVal.str "b2") ]

/-- A submission whose optional `isRevision` has the wrong type. -/
def mistypedRevision : Args :=
  [ ("thought", JVal.str "again"), ("thoughtNumber", JVal.num 2),
    ("totalThoughts", JVal.num 2), ("nextThoughtNeeded", JVal.bool false),
    ("isRevision", JVal.str "yes"), ("revisesThought", JVal.num 1) ]

/-- A ledger holding one thought filed under branch "b1". -/
def ledgerB1 : Ledger :=
  (processThought Ledger.init branchB1).ledger

/-- A record with `isRevision = true` and `revisesThought = 3`. -/
def revisionRecord : ThoughtData :=
  { ThoughtData.zero with
    Thought := "fix", ThoughtNumber := 4, TotalThoughts := 6,
    IsRevision := some true, RevisesThought := some 3 }

/-- A record with only `branchFromThought = 1` and `branchId = "x"`. -/
def branchRecord : ThoughtData :=
  { ThoughtData.zero with
    Thought := "fork", ThoughtNumber := 2, TotalThoughts := 5,
    BranchFromThought := some 1, BranchId := some "x" }

/-- A record with neither `isRevision` nor `branchFromThought`. -/
def plainRecord : ThoughtData :=
  { ThoughtData.zero with Thought := "x", ThoughtNumber := 1, TotalThoughts := 1 }

/-- A submission whose numbers are both zero. -/
def zeroNumbers : Args :=
  [ ("thought", JVal.str "x"), ("thoughtNumber", JVal.num 0),
    ("totalThoughts", JVal.num 0), ("nextThoughtNeeded", JVal.bool false) ]

/-- A submission that lacks both `thoughtNumber` and `nextThoughtNeeded`. -/
def missingTwo : Args :=
  [ ("thought", JVal.str "x"), ("totalThoughts", JVal.num 3) ]

/-- A branch submission, to be compared with `twinB`. -/
def twinA : Args :=
  [ ("thought", JVal.str "first wording"), ("thoughtNumber", JVal.num 2),
    ("totalThoughts", JVal.num 4), ("nextThoughtNeeded", JVal.bool true),
    ("branchFromThought", JVal.num 1), ("branchId", JVal.str "b1") ]

/-- The submission `twinA` with another text and with revision and hint fields. -/
def twinB : Args :=
  [ ("thought", JVal.str "second wording"), ("thoughtNumber", JVal.num 2),
    ("totalThoughts", JVal.num 4), ("nextThoughtNeeded", JVal.bool true),
    ("isRevision", JVal.bool true), ("revisesThought", JVal.num 1),
    ("needsMoreThoughts", JVal.bool true),
    ("branchFromThought", JVal.num 1), ("branchId", JVal.str "b1") ]

/-- A submission filed under branch "b2", forking from thought 1. -/
def branchB2 : Args :=
  [ ("thought", JVal.str "other"), ("thoughtNumber", JVal.num 2),
    ("totalThoughts", JVal.num 4), ("nextThoughtNeeded", JVal.bool true),
    ("branchFromThought", JVal.num 1), ("branchId", JVal.str "b2") ]

/-- A ledger holding the two branches "b1" and "b2". -/
def ledgerB12 : Ledger :=
  (processThought ledgerB1 branchB2).ledger

/-- The range order that visits the keys of the association list last to first. -/
def reverseOrder (branches : BranchMap) : List String :=
  (branches.map Prod.fst).reverse

/-! ## Basic facts about the embedding -/

theorem assertString_eq_some {v : Option JVal} {s : String} :
    assertString v = some s ↔ v = some (JVal.str s) := by
  cases v with
  | none => simp [assertString]
  | some j => cases j <;> simp [assertString]

theorem assertFloat64_eq_some {v : Option JVal} {x : Rat} :
    assertFloat64 v = some x ↔ v = some (JVal.num x) := by
  cases v with
  | none => simp [assertFloat64]
  | some j => cases j <;> simp [assertFloat64]

theorem assertBool_eq_some {v : Option JVal} {b : Bool} :
    assertBool v = some b ↔ v = some (JVal.bool b) := by
  cases v with
  | none => simp [assertBool]
  | some j => cases j <;> simp [assertBool]

theorem assertString_eq_none {v : Option JVal} :
    assertString v = none ↔ ∀ s, v ≠ some (JVal.str s) := by
  cases v with
  | none => simp [assertString]
  | some j => cases j <;> simp [assertString]

theorem assertFloat64_eq_none {v : Option JVal} :
    assertFloat64 v = none ↔ ∀ x, v ≠ some (JVal.num x) := by
  cases v with
  | none => simp [assertFloat64]
  | some j => cases j <;> simp [assertFloat64]

theorem assertBool_eq_none {v : Option JVal} :
    assertBool v = none ↔ ∀ b, v ≠ some (JVal.bool b) := by
  cases v with
  | none => simp [assertBool]
  | some j => cases j <;> simp [assertBool]

/-- Validation in normal form: when the four required fields pass, the record is
`builtRecord` and there is no error. -/
theorem validateThoughtData_of_required {args : Args} {thought : String} {n t : Rat} {b : Bool}
    (h : RequiredAre args thought n t b) :
    validateThoughtData args = (builtRecord args thought n t b, none) := by
  obtain ⟨h1, h1', h2, h3, h4⟩ := h
  unfold validateThoughtData builtRecord
  simp only [assertString_eq_some.mpr h1, assertFloat64_eq_some.mpr h2,
    assertFloat64_eq_some.mpr h3, assertBool_eq_some.mpr h4, if_neg h1']
  cases assertBool (args.index "isRevision") <;>
  cases assertFloat64 (args.index "revisesThought") <;>
  cases assertFloat64 (args.index "branchFromThought") <;>
  cases assertString (args.index "branchId") <;>
  cases assertBool (args.index "needsMoreThoughts") <;> rfl

/-- Every argument map either has a failing required field or has all four. -/
theorem requiredFieldFails_or_required (args : Args) :
    requiredFieldFails args ∨ ∃ thought n t b, RequiredAre args thought n t b := by
  unfold requiredFieldFails thoughtFails numberFails booleanFails RequiredAre
  cases h1 : assertString (args.index "thought") with
  | none => exact Or.inl (Or.inl (Or.inr (Or.inl (assertString_eq_none.mp h1))))
  | some thought =>
    by_cases h1' : thought = ""
    · subst h1'
      exact Or.inl (Or.inl (Or.inr (Or.inr (assertString_eq_some.mp h1))))
    · cases h2 : assertFloat64 (args.index "thoughtNumber") with
      | none => exact Or.inl (Or.inr (Or.inl (Or.inr (assertFloat64_eq_none.mp h2))))
      | some n =>
        cases h3 : assertFloat64 (args.index "totalThoughts") with
        | none =>
          exact Or.inl (Or.inr (Or.inr (Or.inl (Or.inr (assertFloat64_eq_none.mp h3)))))
        | some t =>
          cases h4 : assertBool (args.index "nextThoughtNeeded") with
          | none =>
            exact Or.inl (Or.inr (Or.inr (Or.inr (Or.inr (assertBool_eq_none.mp h4)))))
          | some b =>
            exact Or.inr ⟨thought, n, t, b, assertString_eq_some.mp h1, h1',
              assertFloat64_eq_some.mp h2, assertFloat64_eq_some.mp h3,
              assertBool_eq_some.mp h4⟩

/-- A failing required field and four passing ones exclude each other. -/
theorem not_requiredFieldFails_of_required {args : Args} {thought : String} {n t : Rat}
    {b : Bool} (h : RequiredAre args thought n t b) : ¬ requiredFieldFails args := by
  obtain ⟨h1, h1', h2, h3, h4⟩ := h
  unfold requiredFieldFails thoughtFails numberFails booleanFails
  rintro (h | h | h | h)
  · rcases h with h | h | h
    · rw [h1] at h; cases h
    · exact h thought h1
    · rw [h1] at h
      injection h with h
      injection h with h
      exact h1' h
  · rcases h with h | h
    · rw [h2] at h; cases h
    · exact h n h2
  · rcases h with h | h
    · rw [h3] at h; cases h
    · exact h t h3
  · rcases h with h | h
    · rw [h4] at h; cases h
    · exact h b h4

/-- Validation reports an error as soon as a required field fails. -/
theorem validateThoughtData_of_fails {args : Args} (h : requiredFieldFails args) :
    ∃ e, (validateThoughtData args).2 = some e := by
  unfold validateThoughtData
  cases h1 : assertString (args.index "thought") with
  | none => exact ⟨_, rfl⟩
  | some thought =>
    by_cases h1' : thought = ""
    · simp only [if_pos h1']
      exact ⟨_, rfl⟩
    · simp only [if_neg h1']
      cases h2 : assertFloat64 (args.index "thoughtNumber") with
      | none => exact ⟨_, rfl⟩
      | some n =>
        cases h3 : assertFloat64 (args.index "totalThoughts") with
        | none => exact ⟨_, rfl⟩
        | some t =>
          cases h4 : assertBool (args.index "nextThoughtNeeded") with
          | none => exact ⟨_, rfl⟩
          | some b =>
            exact absurd h (not_requiredFieldFails_of_required
              ⟨assertString_eq_some.mp h1, h1', assertFloat64_eq_some.mp h2,
                assertFloat64_eq_some.mp h3, assertBool_eq_some.mp h4⟩)

end SequentialThinking
namespace SequentialThinking

theorem lookup_cons_ite {β : Type} (a k : String) (b : β) (rest : List (String × β)) :
    List.lookup k ((a, b) :: rest) = if k = a then some b else List.lookup k rest := by
  rw [List.lookup_cons]
  by_cases h : k = a
  · subst h; simp
  · have hb : (k == a) = false := by simpa using h
    rw [hb, if_neg h]

theorem lookup_replace (m : BranchMap) (k k' : String) (v : List ThoughtData) :
    (m.map (fun kv => if kv.1 = k then (kv.1, v) else kv)).lookup k' =
      if k' = k then (m.lookup k).map (fun _ => v) else m.lookup k' := by
  induction m with
  | nil => simp
  | cons kv rest ih =>
    obtain ⟨a, bucket⟩ := kv
    simp only [List.map_cons]
    by_cases ha : a = k
    · subst ha
      simp only [if_true, lookup_cons_ite]
      by_cases hk : k' = a
      · simp [hk]
      · simp only [if_neg hk] at ih ⊢
        exact ih
    · simp only [if_neg ha, lookup_cons_ite]
      by_cases hk : k' = k
      · subst hk
        have ha' : ¬ k' = a := fun e => ha e.symm
        simp only [if_true, if_neg ha'] at ih ⊢
        exact ih
      · simp only [if_neg hk] at ih ⊢
        rw [ih]

theorem lookup_append_single (m : BranchMap) (k k' : String) (v : List ThoughtData) :
    (m ++ [(k, v)]).lookup k' =
      match m.lookup k' with
      | some u => some u
      | none => if k' = k then some v else none := by
  induction m with
  | nil => simp [lookup_cons_ite]
  | cons kv rest ih =>
    obtain ⟨a, bucket⟩ := kv
    simp only [List.cons_append, lookup_cons_ite]
    by_cases hk : k' = a
    · simp [hk]
    · simp only [if_neg hk]
      exact ih

theorem lookup_assign_self (m : BranchMap) (k : String) (v : List ThoughtData) :
    (m.assign k v).lookup k = some v := by
  unfold BranchMap.assign
  split
  · rename_i h
    rw [lookup_replace]
    obtain ⟨u, hu⟩ := Option.isSome_iff_exists.mp h
    simp [hu]
  · rename_i h
    have hn : m.lookup k = none := by
      cases hl : m.lookup k with
      | none => rfl
      | some u => rw [hl] at h; exact absurd rfl h
    rw [lookup_append_single, hn]
    simp

theorem lookup_assign_ne (m : BranchMap) {k k' : String} (v : List ThoughtData) (h : k' ≠ k) :
    (m.assign k v).lookup k' = m.lookup k' := by
  unfold BranchMap.assign
  split
  · rw [lookup_replace, if_neg h]
  · rw [lookup_append_single]
    cases m.lookup k' <;> simp [h]

theorem replace_of_lookup_none (m : BranchMap) (k : String) (v : List ThoughtData)
    (h : m.lookup k = none) :
    m.map (fun kv => if kv.1 = k then (kv.1, v) else kv) = m := by
  induction m with
  | nil => rfl
  | cons kv rest ih =>
    obtain ⟨a, bucket⟩ := kv
    rw [lookup_cons_ite] at h
    by_cases ha : k = a
    · rw [if_pos ha] at h; cases h
    · rw [if_neg ha] at h
      have ha' : ¬ a = k := fun e => ha e.symm
      simp only [List.map_cons, if_neg ha', ih h]

theorem assign_assign (m : BranchMap) (k : String) (u v : List ThoughtData) :
    (m.assign k u).assign k v = m.assign k v := by
  have hs : ((m.assign k u).lookup k).isSome = true := by simp [lookup_assign_self]
  have h1 : (m.assign k u).assign k v =
      (m.assign k u).map (fun kv => if kv.1 = k then (kv.1, v) else kv) := by
    show (if ((m.assign k u).lookup k).isSome then _ else _) = _
    rw [if_pos hs]
  rw [h1]
  unfold BranchMap.assign
  split
  · simp only [List.map_map]
    congr 1
    funext kv
    by_cases hk : kv.1 = k <;> simp [hk]
  · rename_i h
    have hn : m.lookup k = none := by
      cases hl : m.lookup k with
      | none => rfl
      | some u => rw [hl] at h; exact absurd rfl h
    simp [replace_of_lookup_none m k v hn]

/-- The nil check before the append changes nothing: creating the empty bucket
first and then appending is `appendToBranch`. -/
theorem assign_after_nil_check (m : BranchMap) (k : String) (r : ThoughtData) :
    (if (m.index k).isEmpty then m.assign k [] else m).assign k
        ((if (m.index k).isEmpty then m.assign k [] else m).index k ++ [r]) =
      appendToBranch m k r := by
  unfold appendToBranch
  by_cases h : (m.index k).isEmpty
  · have he : m.index k = [] := by simpa using h
    have he' : (m.assign k []).index k = [] := by simp [BranchMap.index, lookup_assign_self]
    rw [if_pos h, he', assign_assign, he]
  · simp only [if_neg h]

theorem marshalIndent_ok (d : ResponseData) : marshalIndent d = Except.ok (jsonText d) := by
  unfold jsonText marshalIndent
  cases sortByKey d <;> rfl

theorem normalize_eq (td : ThoughtData) :
    (if td.ThoughtNumber > td.TotalThoughts then { td with TotalThoughts := td.ThoughtNumber }
      else td) = normalize td := by
  unfold normalize
  by_cases h : td.ThoughtNumber > td.TotalThoughts
  · rw [if_pos h, max_eq_right (le_of_lt h)]
  · rw [if_neg h, max_eq_left (not_lt.mp h)]

theorem foldl_append_singleton (acc names : List String) :
    names.foldl (fun names name => names ++ [name]) acc = acc ++ names := by
  induction names generalizing acc with
  | nil => simp
  | cons x rest ih => rw [List.foldl_cons, ih, List.append_assoc, List.singleton_append]

/-- The loop of `getBranchNames` returns the keys in the order it visits them. -/
theorem getBranchNamesIn_eq (rangeKeys : BranchMap → List String) (branches : BranchMap) :
    getBranchNamesIn rangeKeys branches = rangeKeys branches := by
  unfold getBranchNamesIn
  rw [foldl_append_singleton, List.nil_append]

/-- The outcome of a call whose required fields pass, in closed form, for any
order of the range over the branches. -/
theorem processThoughtIn_of_required (rangeKeys : BranchMap → List String) (L : Ledger)
    {args : Args} {thought : String} {n t : Rat} {b : Bool}
    (h : RequiredAre args thought n t b) :
    processThoughtIn rangeKeys L args =
      { ledger :=
          { thoughtHistory := L.thoughtHistory ++ [recordOf args]
            branches := fileRecord L.branches (recordOf args) }
        result :=
          successPayload (jsonText (summary (recordOf args).ThoughtNumber
            (recordOf args).TotalThoughts (recordOf args).NextThoughtNeeded
            (rangeKeys (fileRecord L.branches (recordOf args)))
            (L.thoughtHistory.length + 1)))
        err := none
        logged := [formatThought (recordOf args)] } := by
  unfold processThoughtIn recordOf
  rw [validateThoughtData_of_required h]
  simp only [normalize_eq, marshalIndent_ok, getBranchNamesIn_eq]
  generalize normalize (builtRecord args thought n t b) = r
  have hfile : (match r.BranchFromThought, r.BranchId with
      | some _, some branchId =>
        (if (L.branches.index branchId).isEmpty then L.branches.assign branchId []
          else L.branches).assign branchId
          ((if (L.branches.index branchId).isEmpty then L.branches.assign branchId []
            else L.branches).index branchId ++ [r])
      | _, _ => L.branches) = fileRecord L.branches r := by
    unfold fileRecord
    cases r.BranchFromThought <;> cases r.BranchId <;> simp only [assign_after_nil_check]
  rw [hfile]
  simp only [successPayload, summary, List.length_append, List.length_singleton, Nat.cast_add,
    Nat.cast_one]

/-- The outcome of a call whose required fields pass, in closed form. -/
theorem processThought_of_required (L : Ledger) {args : Args} {thought : String} {n t : Rat}
    {b : Bool} (h : RequiredAre args thought n t b) :
    processThought L args =
      { ledger :=
          { thoughtHistory := L.thoughtHistory ++ [recordOf args]
            branches := fileRecord L.branches (recordOf args) }
        result :=
          successPayload (jsonText (summary (recordOf args).ThoughtNumber
            (recordOf args).TotalThoughts (recordOf args).NextThoughtNeeded
            (getBranchNames (fileRecord L.branches (recordOf args)))
            (L.thoughtHistory.length + 1)))
        err := none
        logged := [formatThought (recordOf args)] } := by
  unfold processThought
  exact processThoughtIn_of_required getBranchNames L h

/-- The error payload that reports a validation error, for any order of the range
over the branches. -/
theorem processThoughtIn_of_error (rangeKeys : BranchMap → List String) (L : Ledger)
    {args : Args} {e : String} (he : (validateThoughtData args).2 = some e) :
    processThoughtIn rangeKeys L args =
      { ledger := L
        result :=
          { IsError := some true
            Content :=
              [{ Typ := ContentType.ContentTypeText, Text := some ("Error: " ++ e) }] }
        err := none
        logged := [] } := by
  unfold processThoughtIn
  cases hv : validateThoughtData args with
  | mk d e' =>
    rw [hv] at he
    simp only at he
    subst he
    rfl

/-- The error payload that reports a validation error. -/
theorem processThought_of_fails (L : Ledger) {args : Args} (h : requiredFieldFails args) :
    ∃ e, (validateThoughtData args).2 = some e ∧
      processThought L args =
        { ledger := L
          result :=
            { IsError := some true
              Content :=
                [{ Typ := ContentType.ContentTypeText, Text := some ("Error: " ++ e) }] }
          err := none
          logged := [] } := by
  obtain ⟨e, he⟩ := validateThoughtData_of_fails h
  refine ⟨e, he, ?_⟩
  unfold processThought
  exact processThoughtIn_of_error getBranchNames L he

/-- Claim C1. For every ledger and every argument map, `processThought` returns an
error result if and only if at least one required field fails its check (`thought`
absent, not a string or empty; `thoughtNumber` or `totalThoughts` absent or not a
number; `nextThoughtNeeded` absent or not a boolean). Nothing else makes a call
fail: whenever the four required fields pass, the result is a non-error payload,
whatever the optional fields hold. -/
theorem processThought_error_iff_required_fails (L : Ledger) (args : Args) :
    ((processThought L args).result.IsError = some true ↔ requiredFieldFails args) ∧
      ((processThought L args).result.IsError ≠ some true ↔
        ∃ thought n t b, RequiredAre args thought n t b) := by
  rcases requiredFieldFails_or_required args with hf | ⟨thought, n, t, b, hr⟩
  · obtain ⟨e, -, hp⟩ := processThought_of_fails L hf
    rw [hp]
    refine ⟨⟨fun _ => hf, fun _ => rfl⟩, ⟨fun hne => absurd rfl hne, ?_⟩⟩
    rintro ⟨thought, n, t, b, hr⟩
    exact absurd hf (not_requiredFieldFails_of_required hr)
  · have hnf := not_requiredFieldFails_of_required hr
    rw [processThought_of_required L hr]
    refine ⟨⟨fun he => ?_, fun hf => absurd hf hnf⟩, ⟨fun _ => ⟨thought, n, t, b, hr⟩, ?_⟩⟩
    · simp [successPayload] at he
    · intro _ he
      simp [successPayload] at he

/-- Claim C2. Whenever `processThought` returns an error result, the ledger is left
exactly as it was: `thoughtHistory` and the whole `branches` map after the call
equal those before it, for every prior ledger and every argument map. -/
theorem processThought_error_leaves_ledger (L : Ledger) (args : Args)
    (herr : (processThought L args).result.IsError = some true) :
    (processThought L args).ledger = L ∧
      (processThought L args).ledger.thoughtHistory = L.thoughtHistory ∧
      (processThought L args).ledger.thoughtHistory.length = L.thoughtHistory.length ∧
      (processThought L args).ledger.branches = L.branches := by
  rcases requiredFieldFails_or_required args with hf | ⟨thought, n, t, b, hr⟩
  · obtain ⟨e, -, hp⟩ := processThought_of_fails L hf
    rw [hp]
    exact ⟨rfl, rfl, rfl, rfl⟩
  · rw [processThought_of_required L hr] at herr
    simp [successPayload] at herr

/-- Witness for C2: a submission with an empty `thought`, made on a ledger that
already holds a branch, is refused and leaves that ledger as it was. -/
theorem processThought_error_leaves_ledger_witness :
    (processThought ledgerB1 emptyThought).result.IsError = some true ∧
      ((processThought ledgerB1 emptyThought).ledger = ledgerB1 ∧
        (processThought ledgerB1 emptyThought).ledger.thoughtHistory = ledgerB1.thoughtHistory ∧
        (processThought ledgerB1 emptyThought).ledger.thoughtHistory.length =
          ledgerB1.thoughtHistory.length ∧
        (processThought ledgerB1 emptyThought).ledger.branches = ledgerB1.branches) :=
  ⟨by decide, processThought_error_leaves_ledger ledgerB1 emptyThought (by decide)⟩

theorem isErrorResult_iff (o : Outcome) : o.isErrorResult = true ↔ o.result.IsError = some true := by
  unfold Outcome.isErrorResult
  exact beq_iff_eq

/-- One call either fails and keeps the history, or succeeds and makes it one
entry longer. -/
theorem history_length_step (L : Ledger) (args : Args) :
    (processThought L args).ledger.thoughtHistory.length =
      L.thoughtHistory.length + (if (processThought L args).isErrorResult then 0 else 1) := by
  rcases requiredFieldFails_or_required args with hf | ⟨thought, n, t, b, hr⟩
  · obtain ⟨e, -, hp⟩ := processThought_of_fails L hf
    rw [hp]
    rfl
  · rw [processThought_of_required L hr]
    simp [Outcome.isErrorResult, successPayload]

theorem history_length_runCalls (L : Ledger) (calls : List Args) :
    (runCalls L calls).thoughtHistory.length =
      L.thoughtHistory.length + successCount L calls := by
  induction calls generalizing L with
  | nil => rfl
  | cons args rest ih =>
    simp only [runCalls, successCount]
    rw [ih, history_length_step]
    omega

theorem runCalls_append (L : Ledger) (calls : List Args) (args : Args) :
    runCalls L (calls ++ [args]) = (processThought (runCalls L calls) args).ledger := by
  induction calls generalizing L with
  | nil => rfl
  | cons a rest ih =>
    simp only [List.cons_append, runCalls]
    exact ih _

theorem successCount_append (L : Ledger) (calls : List Args) (args : Args) :
    successCount L (calls ++ [args]) =
      successCount L calls +
        (if (processThought (runCalls L calls) args).isErrorResult then 0 else 1) := by
  induction calls generalizing L with
  | nil => simp [successCount, runCalls]
  | cons a rest ih =>
    have h := ih (processThought L a).ledger
    simp only [List.cons_append, successCount, runCalls, List.append_eq]
    omega

/-- Claim C3. Starting from the empty ledger, after any sequence of calls the
history holds exactly as many entries as calls succeeded (failed calls, wherever
they stand, add nothing); and a successful call made after such a sequence, being
the N-th success, returns the summary whose `thoughtHistoryLength` is N. -/
theorem history_length_counts_successes (calls : List Args) :
    (runCalls Ledger.init calls).thoughtHistory.length = successCount Ledger.init calls ∧
      ∀ args : Args,
        (processThought (runCalls Ledger.init calls) args).result.IsError ≠ some true →
        successCount Ledger.init (calls ++ [args]) = successCount Ledger.init calls + 1 ∧
        (runCalls Ledger.init (calls ++ [args])).thoughtHistory.length =
          successCount Ledger.init (calls ++ [args]) ∧
        (processThought (runCalls Ledger.init calls) args).result =
          successPayload (jsonText (summary (recordOf args).ThoughtNumber
            (recordOf args).TotalThoughts (recordOf args).NextThoughtNeeded
            (getBranchNames (runCalls Ledger.init (calls ++ [args])).branches)
            (successCount Ledger.init (calls ++ [args])))) := by
  have hlen : ∀ cs, (runCalls Ledger.init cs).thoughtHistory.length =
      successCount Ledger.init cs := by
    intro cs
    rw [history_length_runCalls]
    simp [Ledger.init]
  refine ⟨hlen calls, fun args hok => ?_⟩
  have hne : (processThought (runCalls Ledger.init calls) args).isErrorResult = false := by
    cases hb : (processThought (runCalls Ledger.init calls) args).isErrorResult with
    | false => rfl
    | true => exact absurd ((isErrorResult_iff _).mp hb) hok
  have hcount := successCount_append Ledger.init calls args
  rw [hne] at hcount
  refine ⟨by simpa using hcount, hlen _, ?_⟩
  rcases requiredFieldFails_or_required args with hf | ⟨thought, n, t, b, hr⟩
  · obtain ⟨e, -, hp⟩ := processThought_of_fails (runCalls Ledger.init calls) hf
    rw [hp] at hok
    exact absurd rfl hok
  · rw [runCalls_append, hcount, ← hlen calls, processThought_of_required _ hr]
    simp

/-- Witness for C3: of the three calls `step1`, an empty thought, `step2`, the
second fails; the third is the second success and reports length 2. -/
theorem history_length_counts_successes_witness :
    (processThought (runCalls Ledger.init [step1, emptyThought]) step2).result.IsError ≠
        some true ∧
      (successCount Ledger.init ([step1, emptyThought] ++ [step2]) =
          successCount Ledger.init [step1, emptyThought] + 1 ∧
        (runCalls Ledger.init ([step1, emptyThought] ++ [step2])).thoughtHistory.length =
          successCount Ledger.init ([step1, emptyThought] ++ [step2]) ∧
        (processThought (runCalls Ledger.init [step1, emptyThought]) step2).result =
          successPayload (jsonText (summary (recordOf step2).ThoughtNumber
            (recordOf step2).TotalThoughts (recordOf step2).NextThoughtNeeded
            (getBranchNames (runCalls Ledger.init ([step1, emptyThought] ++ [step2])).branches)
            (successCount Ledger.init ([step1, emptyThought] ++ [step2]))))) ∧
      successCount Ledger.init ([step1, emptyThought] ++ [step2]) = 2 :=
  ⟨by decide, (history_length_counts_successes [step1, emptyThought]).2 step2 (by decide),
    by decide⟩

/-- The names that `getBranchNames` returns are the keys that have a bucket. -/
theorem mem_getBranchNames (m : BranchMap) (k : String) :
    k ∈ getBranchNames m ↔ (m.lookup k).isSome = true := by
  unfold getBranchNames
  induction m with
  | nil => simp
  | cons kv rest ih =>
    obtain ⟨a, bucket⟩ := kv
    rw [List.map_cons, List.mem_cons, lookup_cons_ite, ih]
    by_cases hk : k = a
    · simp [hk]
    · simp [hk]

/-- A call that does not return an error result had its four required fields. -/
theorem required_of_not_error {L : Ledger} {args : Args}
    (hok : (processThought L args).result.IsError ≠ some true) :
    ∃ thought n t b, RequiredAre args thought n t b := by
  rcases requiredFieldFails_or_required args with hf | h
  · obtain ⟨e, -, hp⟩ := processThought_of_fails L hf
    rw [hp] at hok
    exact absurd rfl hok
  · exact h

/-- The record stored for a map whose required fields hold the values named. -/
theorem recordOf_of_required {args : Args} {thought : String} {n t : Rat} {b : Bool}
    (h : RequiredAre args thought n t b) :
    recordOf args = normalize (builtRecord args thought n t b) := by
  unfold recordOf
  rw [validateThoughtData_of_required h]

/-- Claim C4. For every successful submission, the `totalThoughts` stored in the
appended history record and echoed in the summary is the maximum of the supplied
`totalThoughts` and the supplied `thoughtNumber` (both converted to integers); it
is therefore at least the supplied `totalThoughts` and at least the record's
`thoughtNumber`, and `thoughtNumber` is stored unchanged. -/
theorem stored_total_is_max (L : Ledger) (args : Args) (n t : Rat)
    (hn : args.index "thoughtNumber" = some (JVal.num n))
    (ht : args.index "totalThoughts" = some (JVal.num t))
    (hok : (processThought L args).result.IsError ≠ some true) :
    ∃ r, (processThought L args).ledger.thoughtHistory = L.thoughtHistory ++ [r] ∧
      r.TotalThoughts = max (goInt t) (goInt n) ∧
      r.ThoughtNumber = goInt n ∧
      goInt t ≤ r.TotalThoughts ∧
      r.ThoughtNumber ≤ r.TotalThoughts ∧
      ∃ next names len, (processThought L args).result =
        successPayload (jsonText (summary (goInt n) (max (goInt t) (goInt n)) next names len)) := by
  obtain ⟨thought, n', t', b, hr⟩ := required_of_not_error hok
  have hn' : n' = n := by
    have h := hr.2.2.1
    rw [hn] at h
    injection h with h
    injection h with h
    exact h.symm
  have ht' : t' = t := by
    have h := hr.2.2.2.1
    rw [ht] at h
    injection h with h
    injection h with h
    exact h.symm
  subst hn' ht'
  have hrec := recordOf_of_required hr
  have hT : (recordOf args).TotalThoughts = max (goInt t') (goInt n') := by
    rw [hrec]; rfl
  have hN : (recordOf args).ThoughtNumber = goInt n' := by
    rw [hrec]; rfl
  refine ⟨recordOf args, ?_, hT, hN, ?_, ?_, ?_⟩
  · rw [processThought_of_required L hr]
  · rw [hT]; exact le_max_left _ _
  · rw [hT, hN]; exact le_max_right _ _
  · rw [processThought_of_required L hr, hT, hN]
    exact ⟨_, _, _, rfl⟩

/-- Witness for C4: `step2` supplies thought number 5 against a total of 3. -/
theorem stored_total_is_max_witness :
    (processThought Ledger.init step2).result.IsError ≠ some true ∧
      ∃ r, (processThought Ledger.init step2).ledger.thoughtHistory =
          Ledger.init.thoughtHistory ++ [r] ∧
        r.TotalThoughts = max (goInt 3) (goInt 5) ∧
        r.ThoughtNumber = goInt 5 ∧
        goInt 3 ≤ r.TotalThoughts ∧
        r.ThoughtNumber ≤ r.TotalThoughts ∧
        ∃ next names len, (processThought Ledger.init step2).result =
          successPayload (jsonText (summary (goInt 5) (max (goInt 3) (goInt 5)) next names len)) :=
  ⟨by decide, stored_total_is_max Ledger.init step2 5 3 rfl rfl (by decide)⟩

/-- Claim C5. For every successful submission the result is a non-error payload
with exactly one text block, the JSON encoding of a summary with exactly the five
fields `thoughtNumber`, `totalThoughts`, `nextThoughtNeeded`, `branches` and
`thoughtHistoryLength`: the first three are those of the normalized record just
appended, `branches` lists exactly the keys of the branches map after this call,
and `thoughtHistoryLength` is the length of the history after this call. -/
theorem success_returns_summary (L : Ledger) (args : Args)
    (hok : (processThought L args).result.IsError ≠ some true) :
    ∃ r names,
      (processThought L args).ledger.thoughtHistory = L.thoughtHistory ++ [r] ∧
      r = normalize (validateThoughtData args).1 ∧
      (processThought L args).result =
        { IsError := none
          Content :=
            [{ Typ := ContentType.ContentTypeText
               Text := some (jsonText
                [ ("thoughtNumber", RespVal.int r.ThoughtNumber),
                  ("totalThoughts", RespVal.int r.TotalThoughts),
                  ("nextThoughtNeeded", RespVal.bool r.NextThoughtNeeded),
                  ("branches", RespVal.strings names),
                  ("thoughtHistoryLength",
                    RespVal.int (processThought L args).ledger.thoughtHistory.length) ]) }] } ∧
      (∀ k, k ∈ names ↔ ((processThought L args).ledger.branches.lookup k).isSome = true) ∧
      (processThought L args).err = none := by
  obtain ⟨thought, n, t, b, hr⟩ := required_of_not_error hok
  refine ⟨recordOf args, getBranchNames (fileRecord L.branches (recordOf args)), ?_, rfl, ?_,
    ?_, ?_⟩
  · rw [processThought_of_required L hr]
  · rw [processThought_of_required L hr]
    simp [successPayload, summary]
  · intro k
    rw [processThought_of_required L hr]
    exact mem_getBranchNames _ k
  · rw [processThought_of_required L hr]

/-- Witness for C5, the end-to-end example: from the empty ledger `step1` yields
the summary 1, 3, true, no branches, length 1; then `step2` yields total 5 and
length 2. -/
theorem success_returns_summary_witness :
    (processThought Ledger.init step1).result.IsError ≠ some true ∧
      (∃ r names,
        (processThought Ledger.init step1).ledger.thoughtHistory =
          Ledger.init.thoughtHistory ++ [r] ∧
        r = normalize (validateThoughtData step1).1 ∧
        (processThought Ledger.init step1).result =
          { IsError := none
            Content :=
              [{ Typ := ContentType.ContentTypeText
                 Text := some (jsonText
                  [ ("thoughtNumber", RespVal.int r.ThoughtNumber),
                    ("totalThoughts", RespVal.int r.TotalThoughts),
                    ("nextThoughtNeeded", RespVal.bool r.NextThoughtNeeded),
                    ("branches", RespVal.strings names),
                    ("thoughtHistoryLength",
                      RespVal.int
                        (processThought Ledger.init step1).ledger.thoughtHistory.length) ]) }] } ∧
        (∀ k, k ∈ names ↔
          ((processThought Ledger.init step1).ledger.branches.lookup k).isSome = true) ∧
        (processThought Ledger.init step1).err = none) ∧
      (processThought Ledger.init step1).result =
        successPayload (jsonText (summary 1 3 true [] 1)) ∧
      (processThought (processThought Ledger.init step1).ledger step2).result =
        successPayload (jsonText (summary 5 5 false [] 2)) ∧
      jsonText (summary 1 3 true [] 1) =
        "\x7b\n  \"branches\": [],\n  \"nextThoughtNeeded\": true,\n  \"thoughtHistoryLength\": 1,\n  \"thoughtNumber\": 1,\n  \"totalThoughts\": 3\n\x7d" :=
  ⟨by decide, success_returns_summary Ledger.init step1 (by decide), by decide, by decide,
    by decide⟩

/-- Claim C6. For every ledger and every successful submission that carries both
`branchFromThought` (a number) and `branchId` (a string b), the bucket under b
after the call is the bucket before the call (empty if b had none) with the
normalized record that was appended to history pushed at its end: b is a known
branch id afterwards, the bucket has grown by exactly one, and the bucket under
every other key is unchanged. -/
theorem branch_filing_appends (L : Ledger) (args : Args) (x : Rat) (b : String)
    (hfrom : args.index "branchFromThought" = some (JVal.num x))
    (hid : args.index "branchId" = some (JVal.str b))
    (hok : (processThought L args).result.IsError ≠ some true) :
    ∃ r, r = normalize (validateThoughtData args).1 ∧
      (processThought L args).ledger.thoughtHistory = L.thoughtHistory ++ [r] ∧
      (processThought L args).ledger.branches.lookup b =
        some ((L.branches.lookup b).getD [] ++ [r]) ∧
      b ∈ getBranchNames (processThought L args).ledger.branches ∧
      ((processThought L args).ledger.branches.index b).length =
        (L.branches.index b).length + 1 ∧
      ∀ k, k ≠ b →
        (processThought L args).ledger.branches.lookup k = L.branches.lookup k := by
  obtain ⟨thought, n, t, nb, hr⟩ := required_of_not_error hok
  have hrec := recordOf_of_required hr
  have hF : (recordOf args).BranchFromThought = some (goInt x) := by
    rw [hrec]
    show Option.map goInt (assertFloat64 (args.index "branchFromThought")) = _
    rw [hfrom]; rfl
  have hI : (recordOf args).BranchId = some b := by
    rw [hrec]
    show assertString (args.index "branchId") = _
    rw [hid]; rfl
  have hfile : fileRecord L.branches (recordOf args) =
      L.branches.assign b (L.branches.index b ++ [recordOf args]) := by
    unfold fileRecord
    rw [hF, hI]
    rfl
  have hlook : (fileRecord L.branches (recordOf args)).lookup b =
      some (L.branches.index b ++ [recordOf args]) := by
    rw [hfile, lookup_assign_self]
  rw [processThought_of_required L hr]
  refine ⟨recordOf args, rfl, rfl, hlook, ?_, ?_, ?_⟩
  · rw [mem_getBranchNames]
    show ((fileRecord L.branches (recordOf args)).lookup b).isSome = true
    rw [hlook]; rfl
  · show ((fileRecord L.branches (recordOf args)).index b).length = _
    unfold BranchMap.index at *
    rw [hlook]
    simp
  · intro k hk
    show (fileRecord L.branches (recordOf args)).lookup k = _
    rw [hfile, lookup_assign_ne _ _ hk]

/-- Witness for C6: a second submission under the branch id "b1" appends to the
bucket, which then holds two records. -/
theorem branch_filing_appends_witness :
    (processThought ledgerB1 branchB1).result.IsError ≠ some true ∧
      (∃ r, r = normalize (validateThoughtData branchB1).1 ∧
        (processThought ledgerB1 branchB1).ledger.thoughtHistory =
          ledgerB1.thoughtHistory ++ [r] ∧
        (processThought ledgerB1 branchB1).ledger.branches.lookup "b1" =
          some ((ledgerB1.branches.lookup "b1").getD [] ++ [r]) ∧
        "b1" ∈ getBranchNames (processThought ledgerB1 branchB1).ledger.branches ∧
        ((processThought ledgerB1 branchB1).ledger.branches.index "b1").length =
          (ledgerB1.branches.index "b1").length + 1 ∧
        ∀ k, k ≠ "b1" →
          (processThought ledgerB1 branchB1).ledger.branches.lookup k =
            ledgerB1.branches.lookup k) ∧
      getBranchNames ledgerB1.branches = ["b1"] ∧
      ((processThought ledgerB1 branchB1).ledger.branches.index "b1").length = 2 :=
  ⟨by decide, branch_filing_appends ledgerB1 branchB1 2 "b1" rfl rfl (by decide), by decide,
    by decide⟩

/-- Claim C7. Branch filing needs both fields: for every ledger and every
submission whose required fields are valid and in which `branchFromThought` is
absent or not a number, or `branchId` is absent or not a string, the call
succeeds, the record is appended to history, and the branches map after the call
is the branches map before it, whatever `isRevision` holds. -/
theorem no_filing_without_both_fields (L : Ledger) (args : Args) (thought : String)
    (n t : Rat) (b : Bool) (hreq : RequiredAre args thought n t b)
    (hmiss : (∀ x, args.index "branchFromThought" ≠ some (JVal.num x)) ∨
      (∀ s, args.index "branchId" ≠ some (JVal.str s))) :
    (processThought L args).result.IsError = none ∧
      (processThought L args).ledger.thoughtHistory =
        L.thoughtHistory ++ [normalize (validateThoughtData args).1] ∧
      (processThought L args).ledger.branches = L.branches := by
  have hrec := recordOf_of_required hreq
  rw [processThought_of_required L hreq]
  refine ⟨rfl, rfl, ?_⟩
  show fileRecord L.branches (recordOf args) = L.branches
  unfold fileRecord
  rcases hmiss with h | h
  · have hF : (recordOf args).BranchFromThought = none := by
      rw [hrec]
      show Option.map goInt (assertFloat64 (args.index "branchFromThought")) = _
      rw [assertFloat64_eq_none.mpr h]; rfl
    rw [hF]
  · have hI : (recordOf args).BranchId = none := by
      rw [hrec]
      show assertString (args.index "branchId") = _
      exact assertString_eq_none.mpr h
    rw [hI]
    cases (recordOf args).BranchFromThought <;> rfl

/-- Witness for C7: a revision that names a branch id but no branching point is
accepted and leaves the branches map of `ledgerB1` as it was. -/
theorem no_filing_without_both_fields_witness :
    RequiredAre branchIdOnly "alt" 3 4 true ∧
      ((processThought ledgerB1 branchIdOnly).result.IsError = none ∧
        (processThought ledgerB1 branchIdOnly).ledger.thoughtHistory =
          ledgerB1.thoughtHistory ++ [normalize (validateThoughtData branchIdOnly).1] ∧
        (processThought ledgerB1 branchIdOnly).ledger.branches = ledgerB1.branches) :=
  ⟨⟨rfl, by decide, rfl, rfl, rfl⟩,
    no_filing_without_both_fields ledgerB1 branchIdOnly "alt" 3 4 true
      ⟨rfl, by decide, rfl, rfl, rfl⟩ (Or.inl (fun x h => by cases h))⟩

/-- Indexing a map from which one key was removed. -/
theorem index_remove (args : Args) (k k' : String) :
    (args.remove k).index k' = if k' = k then none else args.index k' := by
  unfold Args.remove Args.index
  induction args with
  | nil => simp
  | cons kv rest ih =>
    obtain ⟨a, v⟩ := kv
    by_cases ha : a = k
    · subst ha
      have hf : List.filter (fun kv : String × JVal => decide (kv.1 ≠ a)) ((a, v) :: rest) =
          List.filter (fun kv : String × JVal => decide (kv.1 ≠ a)) rest := by
        simp [List.filter_cons]
      rw [hf, ih, lookup_cons_ite]
      by_cases hk : k' = a
      · simp [hk]
      · simp [hk]
    · have hf : List.filter (fun kv : String × JVal => decide (kv.1 ≠ k)) ((a, v) :: rest) =
          (a, v) :: List.filter (fun kv : String × JVal => decide (kv.1 ≠ k)) rest := by
        simp [List.filter_cons, ha]
      rw [hf, lookup_cons_ite, lookup_cons_ite, ih]
      by_cases hk : k' = a
      · have hkk : ¬ k' = k := fun e => ha (hk ▸ e)
        simp [hk, ha]
      · simp [hk]

theorem assertBool_none : assertBool none = none := rfl

theorem assertFloat64_none : assertFloat64 none = none := rfl

theorem assertString_none : assertString none = none := rfl

theorem assertBool_of_not_boolean {v : JVal} (h : v.hasType FieldType.boolean = false) :
    assertBool (some v) = none := by
  cases v <;> simp_all [JVal.hasType, assertBool]

theorem assertFloat64_of_not_number {v : JVal} (h : v.hasType FieldType.number = false) :
    assertFloat64 (some v) = none := by
  cases v <;> simp_all [JVal.hasType, assertFloat64]

theorem assertString_of_not_string {v : JVal} (h : v.hasType FieldType.string = false) :
    assertString (some v) = none := by
  cases v <;> simp_all [JVal.hasType, assertString]

/-- Removing a key that is not a required one keeps the required fields. -/
theorem required_remove {args : Args} {thought : String} {n t : Rat} {b : Bool}
    (h : RequiredAre args thought n t b) (k : String) (h1 : "thought" ≠ k)
    (h2 : "thoughtNumber" ≠ k) (h3 : "totalThoughts" ≠ k) (h4 : "nextThoughtNeeded" ≠ k) :
    RequiredAre (args.remove k) thought n t b := by
  obtain ⟨a1, a1', a2, a3, a4⟩ := h
  refine ⟨?_, a1', ?_, ?_, ?_⟩
  · rw [index_remove, if_neg h1, a1]
  · rw [index_remove, if_neg h2, a2]
  · rw [index_remove, if_neg h3, a3]
  · rw [index_remove, if_neg h4, a4]

/-- Claim C8. For every argument map whose required fields are valid, validation
succeeds whatever the five optional keys hold; an optional key present with its
declared type sets the record's field to that value (numbers converted to
integers); an optional key present with any other type leaves the field absent
and yields the very record obtained from the same map with that key removed. -/
theorem optional_fields_permissive (args : Args) (thought : String) (n t : Rat) (b : Bool)
    (hreq : RequiredAre args thought n t b) :
    (validateThoughtData args).2 = none ∧
      (∀ v, args.index "isRevision" = some (JVal.bool v) →
        (validateThoughtData args).1.IsRevision = some v) ∧
      (∀ x, args.index "revisesThought" = some (JVal.num x) →
        (validateThoughtData args).1.RevisesThought = some (goInt x)) ∧
      (∀ x, args.index "branchFromThought" = some (JVal.num x) →
        (validateThoughtData args).1.BranchFromThought = some (goInt x)) ∧
      (∀ s, args.index "branchId" = some (JVal.str s) →
        (validateThoughtData args).1.BranchId = some s) ∧
      (∀ v, args.index "needsMoreThoughts" = some (JVal.bool v) →
        (validateThoughtData args).1.NeedsMoreThoughts = some v) ∧
      ∀ k ty v, (k, ty) ∈ optionalFields → args.index k = some v → v.hasType ty = false →
        (validateThoughtData args).1.hasOptional k = false ∧
        validateThoughtData (args.remove k) = validateThoughtData args := by
  rw [validateThoughtData_of_required hreq]
  refine ⟨rfl, ?_, ?_, ?_, ?_, ?_, ?_⟩
  · intro v h
    show assertBool (args.index "isRevision") = some v
    rw [h]; rfl
  · intro x h
    show Option.map goInt (assertFloat64 (args.index "revisesThought")) = some (goInt x)
    rw [h]; rfl
  · intro x h
    show Option.map goInt (assertFloat64 (args.index "branchFromThought")) = some (goInt x)
    rw [h]; rfl
  · intro s h
    show assertString (args.index "branchId") = some s
    rw [h]; rfl
  · intro v h
    show assertBool (args.index "needsMoreThoughts") = some v
    rw [h]; rfl
  · intro k ty v hmem hv hty
    simp only [optionalFields, List.mem_cons, Prod.mk.injEq, List.mem_singleton,
      List.not_mem_nil, or_false] at hmem
    rcases hmem with ⟨rfl, rfl⟩ | ⟨rfl, rfl⟩ | ⟨rfl, rfl⟩ | ⟨rfl, rfl⟩ | ⟨rfl, rfl⟩
    · have hnone := assertBool_of_not_boolean hty
      rw [validateThoughtData_of_required
        (required_remove hreq _ (by decide) (by decide) (by decide) (by decide))]
      constructor
      · simp [ThoughtData.hasOptional, builtRecord, hv, hnone]
      · simp [builtRecord, index_remove, hv, hnone, assertBool_none]
    · have hnone := assertFloat64_of_not_number hty
      rw [validateThoughtData_of_required
        (required_remove hreq _ (by decide) (by decide) (by decide) (by decide))]
      constructor
      · simp [ThoughtData.hasOptional, builtRecord, hv, hnone]
      · simp [builtRecord, index_remove, hv, hnone, assertFloat64_none]
    · have hnone := assertFloat64_of_not_number hty
      rw [validateThoughtData_of_required
        (required_remove hreq _ (by decide) (by decide) (by decide) (by decide))]
      constructor
      · simp [ThoughtData.hasOptional, builtRecord, hv, hnone]
      · simp [builtRecord, index_remove, hv, hnone, assertFloat64_none]
    · have hnone := assertString_of_not_string hty
      rw [validateThoughtData_of_required
        (required_remove hreq _ (by decide) (by decide) (by decide) (by decide))]
      constructor
      · simp [ThoughtData.hasOptional, builtRecord, hv, hnone]
      · simp [builtRecord, index_remove, hv, hnone, assertString_none]
    · have hnone := assertBool_of_not_boolean hty
      rw [validateThoughtData_of_required
        (required_remove hreq _ (by decide) (by decide) (by decide) (by decide))]
      constructor
      · simp [ThoughtData.hasOptional, builtRecord, hv, hnone]
      · simp [builtRecord, index_remove, hv, hnone, assertBool_none]

/-- Witness for C8: `isRevision` holds a string and is dropped, `revisesThought`
holds a number and is kept. -/
theorem optional_fields_permissive_witness :
    RequiredAre mistypedRevision "again" 2 2 false ∧
      ((validateThoughtData mistypedRevision).2 = none ∧
        (∀ v, mistypedRevision.index "isRevision" = some (JVal.bool v) →
          (validateThoughtData mistypedRevision).1.IsRevision = some v) ∧
        (∀ x, mistypedRevision.index "revisesThought" = some (JVal.num x) →
          (validateThoughtData mistypedRevision).1.RevisesThought = some (goInt x)) ∧
        (∀ x, mistypedRevision.index "branchFromThought" = some (JVal.num x) →
          (validateThoughtData mistypedRevision).1.BranchFromThought = some (goInt x)) ∧
        (∀ s, mistypedRevision.index "branchId" = some (JVal.str s) →
          (validateThoughtData mistypedRevision).1.BranchId = some s) ∧
        (∀ v, mistypedRevision.index "needsMoreThoughts" = some (JVal.bool v) →
          (validateThoughtData mistypedRevision).1.NeedsMoreThoughts = some v) ∧
        ∀ k ty v, (k, ty) ∈ optionalFields → mistypedRevision.index k = some v →
          v.hasType ty = false →
          (validateThoughtData mistypedRevision).1.hasOptional k = false ∧
          validateThoughtData (mistypedRevision.remove k) =
            validateThoughtData mistypedRevision) ∧
      (validateThoughtData mistypedRevision).1.IsRevision = none ∧
      (validateThoughtData mistypedRevision).1.RevisesThought = some 1 :=
  ⟨⟨rfl, by decide, rfl, rfl, rfl⟩,
    optional_fields_permissive mistypedRevision "again" 2 2 false
      ⟨rfl, by decide, rfl, rfl, rfl⟩,
    by decide, by decide⟩

/-- The rendering in terms of the spec's vocabulary: delimiter, header line,
text, closing delimiter. -/
theorem formatThought_eq (record : ThoughtData) :
    formatThought record =
      "\n=== " ++ headerLine record ++ " ===\n" ++ record.Thought ++ "\n================" := by
  unfold formatThought headerLine annotation classify
  by_cases hrev : record.IsRevision = some true
  · simp only [if_pos hrev, ThoughtClass.label]
  · simp only [if_neg hrev]
    cases hb : record.BranchFromThought with
    | none => rfl
    | some n =>
      simp only [Option.isSome_some, if_true, ThoughtClass.label]
      cases record.BranchId <;> rfl

theorem classify_revision {record : ThoughtData} (h : record.IsRevision = some true) :
    classify record = ThoughtClass.Revision := by
  unfold classify
  rw [if_pos h]

theorem classify_branch {record : ThoughtData} (h : record.IsRevision ≠ some true)
    (hb : record.BranchFromThought ≠ none) : classify record = ThoughtClass.Branch := by
  unfold classify
  rw [if_neg h]
  cases hbf : record.BranchFromThought with
  | none => exact absurd hbf hb
  | some n => rfl

theorem classify_plain {record : ThoughtData} (h : record.IsRevision ≠ some true)
    (hb : record.BranchFromThought = none) : classify record = ThoughtClass.Plain := by
  unfold classify
  rw [if_neg h, hb]
  rfl

/-- Counterexample to C9 as stated: a record with neither `isRevision` nor
`branchFromThought` is rendered under the label "💭 Thought"; the word "Plain"
occurs nowhere in its rendering. -/
theorem plain_record_not_labelled_plain :
    plainRecord.IsRevision ≠ some true ∧ plainRecord.BranchFromThought = none ∧
      formatThought plainRecord = "\n=== 💭 Thought 1/1 ===\nx\n================" ∧
      ¬ occursIn "Plain" (formatThought plainRecord) := by
  refine ⟨by decide, by decide, by decide, ?_⟩
  unfold occursIn
  decide

/-- Claim C9, amended. Every record falls in exactly one of the classes Revision
(`isRevision == true`, even when `branchFromThought` is set too), Branch
(`branchFromThought` set, `isRevision` absent or false) and Plain (neither), and
`formatThought` opens the header with the label of that class: "🔄 Revision",
"🌿 Branch" and, for a Plain record, "💭 Thought" followed by the numbers alone,
without annotation. -/
theorem formatThought_carries_class_label (record : ThoughtData) :
    (record.IsRevision = some true →
      classify record = ThoughtClass.Revision ∧
      ∃ rest, formatThought record = "\n=== 🔄 Revision " ++ rest) ∧
    (record.IsRevision ≠ some true → record.BranchFromThought ≠ none →
      classify record = ThoughtClass.Branch ∧
      ∃ rest, formatThought record = "\n=== 🌿 Branch " ++ rest) ∧
    (record.IsRevision ≠ some true → record.BranchFromThought = none →
      classify record = ThoughtClass.Plain ∧
      formatThought record =
        "\n=== 💭 Thought " ++ toString record.ThoughtNumber ++ "/" ++
          toString record.TotalThoughts ++ " ===\n" ++ record.Thought ++
          "\n================") := by
  refine ⟨fun h => ⟨classify_revision h, ?_⟩, fun h hb => ⟨classify_branch h hb, ?_⟩,
    fun h hb => ⟨classify_plain h hb, ?_⟩⟩
  · have hl : "\n=== 🔄 Revision " = "\n=== " ++ ("🔄 Revision" ++ " ") := by decide
    rw [formatThought_eq, headerLine, classify_revision h, hl]
    simp only [ThoughtClass.label, String.append_assoc]
    exact ⟨_, rfl⟩
  · have hl : "\n=== 🌿 Branch " = "\n=== " ++ ("🌿 Branch" ++ " ") := by decide
    rw [formatThought_eq, headerLine, classify_branch h hb, hl]
    simp only [ThoughtClass.label, String.append_assoc]
    exact ⟨_, rfl⟩
  · have hl : "\n=== 💭 Thought " = "\n=== " ++ ("💭 Thought" ++ " ") := by decide
    have ha : annotation record = "" := by
      unfold annotation
      rw [classify_plain h hb]
    rw [formatThought_eq, headerLine, classify_plain h hb, hl, ha]
    simp only [ThoughtClass.label, String.append_assoc, String.append_empty]

/-- Witness for C9: the revision of thought 3 and the branch from thought 1. -/
theorem formatThought_carries_class_label_witness :
    revisionRecord.IsRevision = some true ∧
      (classify revisionRecord = ThoughtClass.Revision ∧
        ∃ rest, formatThought revisionRecord = "\n=== 🔄 Revision " ++ rest) ∧
      (branchRecord.IsRevision ≠ some true ∧ branchRecord.BranchFromThought ≠ none) ∧
      (classify branchRecord = ThoughtClass.Branch ∧
        ∃ rest, formatThought branchRecord = "\n=== 🌿 Branch " ++ rest) ∧
      formatThought revisionRecord =
        "\n=== 🔄 Revision 4/6 (revising thought 3) ===\nfix\n================" ∧
      formatThought branchRecord =
        "\n=== 🌿 Branch 2/5 (from thought 1, ID: x) ===\nfork\n================" ∧
      occursIn "Revision" (formatThought revisionRecord) ∧
      occursIn "Branch" (formatThought branchRecord) :=
  ⟨by decide, (formatThought_carries_class_label revisionRecord).1 (by decide),
    ⟨by decide, by decide⟩,
    (formatThought_carries_class_label branchRecord).2.1 (by decide) (by decide),
    by decide, by decide, by unfold occursIn; decide, by unfold occursIn; decide⟩

/-- Claim C10. For every record, `formatThought` returns a newline, the line
"=== " + header + " ===", a newline, the thought text as it is, a newline, and a
closing line of 16 '=' characters, where header is
"{label} {thoughtNumber}/{totalThoughts}{annotation}". The annotation is
" (revising thought n)" for a Revision whose `revisesThought` is n,
" (from thought n, ID: b)" for a Branch from n with branch id b (b empty when
`branchId` is absent), and empty for a Plain record and for a Revision without
`revisesThought`. The record that `processThought` renders and logs is the
normalized one, so the header shows the normalized `totalThoughts`. -/
theorem formatThought_layout (record : ThoughtData) :
    formatThought record =
        "\n" ++ ("=== " ++ headerLine record ++ " ===") ++ "\n" ++ record.Thought ++ "\n" ++
          String.mk (List.replicate 16 '=') ∧
      headerLine record =
        (classify record).label ++ " " ++ toString record.ThoughtNumber ++ "/" ++
          toString record.TotalThoughts ++ annotation record ∧
      (∀ n, record.IsRevision = some true → record.RevisesThought = some n →
        annotation record = " (revising thought " ++ toString n ++ ")") ∧
      (record.IsRevision = some true → record.RevisesThought = none →
        annotation record = "") ∧
      (∀ n b, record.IsRevision ≠ some true → record.BranchFromThought = some n →
        record.BranchId = some b →
        annotation record = " (from thought " ++ toString n ++ ", ID: " ++ b ++ ")") ∧
      (∀ n, record.IsRevision ≠ some true → record.BranchFromThought = some n →
        record.BranchId = none →
        annotation record = " (from thought " ++ toString n ++ ", ID: " ++ "" ++ ")") ∧
      (record.IsRevision ≠ some true → record.BranchFromThought = none →
        annotation record = "") ∧
      ∀ (L : Ledger) (args : Args), (processThought L args).result.IsError ≠ some true →
        (processThought L args).logged = [formatThought (normalize (validateThoughtData args).1)] ∧
        (normalize (validateThoughtData args).1).TotalThoughts =
          max (validateThoughtData args).1.TotalThoughts
            (validateThoughtData args).1.ThoughtNumber := by
  refine ⟨?_, rfl, ?_, ?_, ?_, ?_, ?_, ?_⟩
  · have hd : String.mk (List.replicate 16 '=') = "================" := by decide
    rw [formatThought_eq, hd]
    simp only [String.append_assoc]
    rfl
  · intro n h hn
    unfold annotation
    rw [classify_revision h, hn]
  · intro h hn
    unfold annotation
    rw [classify_revision h, hn]
  · intro n b h hn hb
    have hne : record.BranchFromThought ≠ none := by rw [hn]; exact Option.some_ne_none n
    unfold annotation
    rw [classify_branch h hne, hn, hb]
    rfl
  · intro n h hn hb
    have hne : record.BranchFromThought ≠ none := by rw [hn]; exact Option.some_ne_none n
    unfold annotation
    rw [classify_branch h hne, hn, hb]
    rfl
  · intro h hn
    unfold annotation
    rw [classify_plain h hn]
  · intro L args hok
    obtain ⟨thought, n, t, b, hr⟩ := required_of_not_error hok
    rw [processThought_of_required L hr]
    exact ⟨rfl, rfl⟩

/-- Witness for C10: the renderings of the three sample records, and the log line
of `step2`, whose total 3 is shown raised to 5. -/
theorem formatThought_layout_witness :
    (branchRecord.IsRevision ≠ some true ∧ branchRecord.BranchFromThought = some 1 ∧
        branchRecord.BranchId = some "x") ∧
      annotation branchRecord = " (from thought " ++ toString (1 : Int) ++ ", ID: " ++ "x" ++ ")" ∧
      (revisionRecord.IsRevision = some true ∧ revisionRecord.RevisesThought = some 3) ∧
      annotation revisionRecord = " (revising thought " ++ toString (3 : Int) ++ ")" ∧
      (plainRecord.IsRevision ≠ some true ∧ plainRecord.BranchFromThought = none) ∧
      annotation plainRecord = "" ∧
      (processThought Ledger.init step2).result.IsError ≠ some true ∧
      ((processThought Ledger.init step2).logged =
          [formatThought (normalize (validateThoughtData step2).1)] ∧
        (normalize (validateThoughtData step2).1).TotalThoughts =
          max (validateThoughtData step2).1.TotalThoughts
            (validateThoughtData step2).1.ThoughtNumber) ∧
      (processThought Ledger.init step2).logged =
        ["\n=== 💭 Thought 5/5 ===\nstep2\n================"] ∧
      formatThought branchRecord =
        "\n=== 🌿 Branch 2/5 (from thought 1, ID: x) ===\nfork\n================" :=
  ⟨⟨by decide, by decide, by decide⟩,
    (formatThought_layout branchRecord).2.2.2.2.1 1 "x" (by decide) (by decide) (by decide),
    ⟨by decide, by decide⟩,
    (formatThought_layout revisionRecord).2.2.1 3 (by decide) (by decide),
    ⟨by decide, by decide⟩,
    (formatThought_layout plainRecord).2.2.2.2.2.2.1 (by decide) (by decide),
    by decide,
    (formatThought_layout plainRecord).2.2.2.2.2.2.2 Ledger.init step2 (by decide),
    by decide, by decide⟩

/-- Every call either keeps the ledger (error result) or appends the stored record
and files it (success). -/
theorem processThought_cases (L : Ledger) (args : Args) :
    (∃ e, (validateThoughtData args).2 = some e ∧
      processThought L args =
        { ledger := L, result := errorPayload ("Error: " ++ e), err := none, logged := [] }) ∨
    ((validateThoughtData args).2 = none ∧
      processThought L args =
        { ledger :=
            { thoughtHistory := L.thoughtHistory ++ [recordOf args]
              branches := fileRecord L.branches (recordOf args) }
          result :=
            successPayload (jsonText (summary (recordOf args).ThoughtNumber
              (recordOf args).TotalThoughts (recordOf args).NextThoughtNeeded
              (getBranchNames (fileRecord L.branches (recordOf args)))
              (L.thoughtHistory.length + 1)))
          err := none
          logged := [formatThought (recordOf args)] }) := by
  rcases requiredFieldFails_or_required args with hf | ⟨thought, n, t, b, hr⟩
  · obtain ⟨e, he, hp⟩ := processThought_of_fails L hf
    exact Or.inl ⟨e, he, hp⟩
  · refine Or.inr ⟨?_, processThought_of_required L hr⟩
    rw [validateThoughtData_of_required hr]

/-- The history before a sequence of calls is a prefix of the history after it. -/
theorem history_prefix_runCalls (L : Ledger) (calls : List Args) :
    L.thoughtHistory <+: (runCalls L calls).thoughtHistory := by
  induction calls generalizing L with
  | nil => exact List.prefix_refl _
  | cons args rest ih =>
    have hstep : L.thoughtHistory <+: (processThought L args).ledger.thoughtHistory := by
      rcases processThought_cases L args with ⟨e, -, hp⟩ | ⟨-, hp⟩
      · rw [hp]
      · rw [hp]; exact List.prefix_append _ _
    exact List.IsPrefix.trans hstep (ih _)

/-- Claim C11. History is append-only: for every ledger and every argument map
the history before a call is a prefix of the history after it (nothing is
mutated, reordered or removed), and the same holds over any sequence of calls; on
success the new history is the old one followed by the one normalized record. -/
theorem history_append_only (L : Ledger) (args : Args) :
    L.thoughtHistory <+: (processThought L args).ledger.thoughtHistory ∧
      (∀ calls, L.thoughtHistory <+: (runCalls L calls).thoughtHistory) ∧
      ((processThought L args).result.IsError ≠ some true →
        (processThought L args).ledger.thoughtHistory =
          L.thoughtHistory ++ [normalize (validateThoughtData args).1]) := by
  refine ⟨?_, history_prefix_runCalls L, ?_⟩
  · rcases processThought_cases L args with ⟨e, -, hp⟩ | ⟨-, hp⟩
    · rw [hp]
    · rw [hp]; exact List.prefix_append _ _
  · intro hok
    rcases processThought_cases L args with ⟨e, -, hp⟩ | ⟨-, hp⟩
    · rw [hp] at hok
      exact absurd rfl hok
    · rw [hp]
      rfl

/-- Witness for C11: `step1` submitted on a ledger that already holds one record. -/
theorem history_append_only_witness :
    (processThought ledgerB1 step1).result.IsError ≠ some true ∧
      (processThought ledgerB1 step1).ledger.thoughtHistory =
        ledgerB1.thoughtHistory ++ [normalize (validateThoughtData step1).1] ∧
      (processThought ledgerB1 step1).ledger.thoughtHistory.length = 2 :=
  ⟨by decide, (history_append_only ledgerB1 step1).2.2 (by decide), by decide⟩

/-- Claim C12. Branch buckets are append-only per key: for every ledger and every
argument map, every branch id that has a bucket before a call still has one after
it, and the bucket before the call is a prefix of the bucket after the call. -/
theorem buckets_append_only (L : Ledger) (args : Args) (k : String)
    (bucket : List ThoughtData) (hk : L.branches.lookup k = some bucket) :
    k ∈ getBranchNames (processThought L args).ledger.branches ∧
      ∃ bucket', (processThought L args).ledger.branches.lookup k = some bucket' ∧
        bucket <+: bucket' := by
  have hmain : ∃ bucket', (processThought L args).ledger.branches.lookup k = some bucket' ∧
      bucket <+: bucket' := by
    rcases processThought_cases L args with ⟨e, -, hp⟩ | ⟨-, hp⟩
    · rw [hp]
      exact ⟨bucket, hk, List.prefix_refl _⟩
    · rw [hp]
      show ∃ bucket', (fileRecord L.branches (recordOf args)).lookup k = some bucket' ∧ _
      unfold fileRecord
      cases (recordOf args).BranchFromThought with
      | none => exact ⟨bucket, hk, List.prefix_refl _⟩
      | some n =>
        cases (recordOf args).BranchId with
        | none => exact ⟨bucket, hk, List.prefix_refl _⟩
        | some b =>
          show ∃ bucket', (appendToBranch L.branches b (recordOf args)).lookup k =
            some bucket' ∧ _
          unfold appendToBranch
          by_cases hkb : k = b
          · subst hkb
            refine ⟨_, lookup_assign_self _ _ _, ?_⟩
            unfold BranchMap.index
            rw [hk]
            exact List.prefix_append _ _
          · rw [lookup_assign_ne _ _ hkb]
            exact ⟨bucket, hk, List.prefix_refl _⟩
  obtain ⟨bucket', hb, hpre⟩ := hmain
  refine ⟨?_, bucket', hb, hpre⟩
  rw [mem_getBranchNames, hb]
  rfl

/-- Witness for C12: a second submission under "b1" extends the bucket that
`ledgerB1` holds under that key. -/
theorem buckets_append_only_witness :
    ledgerB1.branches.lookup "b1" = some [normalize (validateThoughtData branchB1).1] ∧
      ("b1" ∈ getBranchNames (processThought ledgerB1 branchB1).ledger.branches ∧
        ∃ bucket', (processThought ledgerB1 branchB1).ledger.branches.lookup "b1" =
            some bucket' ∧
          [normalize (validateThoughtData branchB1).1] <+: bucket') :=
  ⟨by decide,
    buckets_append_only ledgerB1 branchB1 "b1" [normalize (validateThoughtData branchB1).1]
      (by decide)⟩

theorem mem_of_lookup_eq_some {β : Type} (m : List (String × β)) (k : String) (v : β)
    (h : m.lookup k = some v) : (k, v) ∈ m := by
  induction m with
  | nil => simp at h
  | cons kv rest ih =>
    obtain ⟨a, b⟩ := kv
    rw [lookup_cons_ite] at h
    by_cases hk : k = a
    · rw [if_pos hk] at h
      injection h with h
      subst hk h
      exact List.mem_cons_self _ _
    · rw [if_neg hk] at h
      exact List.mem_cons_of_mem _ (ih h)

theorem mem_assign (m : BranchMap) (k : String) (v : List ThoughtData)
    (kv : String × List ThoughtData) (h : kv ∈ m.assign k v) : kv ∈ m ∨ kv = (k, v) := by
  unfold BranchMap.assign at h
  split at h
  · obtain ⟨x, hx, hfx⟩ := List.mem_map.mp h
    by_cases hxk : x.1 = k
    · rw [if_pos hxk] at hfx
      right
      rw [← hfx, hxk]
    · rw [if_neg hxk] at hfx
      left
      rw [← hfx]
      exact hx
  · rcases List.mem_append.mp h with h | h
    · exact Or.inl h
    · exact Or.inr (List.mem_singleton.mp h)

theorem mem_index (m : BranchMap) (k : String) (r : ThoughtData) (h : r ∈ m.index k) :
    ∃ kv ∈ m, r ∈ kv.2 := by
  unfold BranchMap.index at h
  cases hl : m.lookup k with
  | none =>
    rw [hl] at h
    simp at h
  | some bucket =>
    rw [hl] at h
    exact ⟨(k, bucket), mem_of_lookup_eq_some m k bucket hl, h⟩

/-- A property of records that holds of the ledger and of the record a call stores
holds of the ledger after the call. -/
theorem allRecords_step (P : ThoughtData → Prop) (L : Ledger) (args : Args)
    (hL : L.AllRecords P) (hP : (validateThoughtData args).2 = none → P (recordOf args)) :
    (processThought L args).ledger.AllRecords P := by
  rcases processThought_cases L args with ⟨e, -, hp⟩ | ⟨hv, hp⟩
  · rw [hp]
    exact hL
  · rw [hp]
    have hr := hP hv
    constructor
    · intro r hmem
      rcases List.mem_append.mp hmem with h | h
      · exact hL.1 r h
      · rw [List.mem_singleton.mp h]
        exact hr
    · intro kv hkv r hmem
      have hkv' : kv ∈ fileRecord L.branches (recordOf args) := hkv
      unfold fileRecord at hkv'
      cases hF : (recordOf args).BranchFromThought with
      | none =>
        rw [hF] at hkv'
        exact hL.2 kv hkv' r hmem
      | some n =>
        cases hI : (recordOf args).BranchId with
        | none =>
          rw [hF, hI] at hkv'
          exact hL.2 kv hkv' r hmem
        | some b =>
          rw [hF, hI] at hkv'
          rcases mem_assign _ _ _ _ hkv' with h | h
          · exact hL.2 kv h r hmem
          · rw [h] at hmem
            rcases List.mem_append.mp hmem with h' | h'
            · obtain ⟨kv', hkv'', hr'⟩ := mem_index _ _ _ h'
              exact hL.2 kv' hkv'' r hr'
            · rw [List.mem_singleton.mp h']
              exact hr

theorem allRecords_runCalls (P : ThoughtData → Prop) (L : Ledger) (calls : List Args)
    (hL : L.AllRecords P)
    (hP : ∀ args ∈ calls, (validateThoughtData args).2 = none → P (recordOf args)) :
    (runCalls L calls).AllRecords P := by
  induction calls generalizing L with
  | nil => exact hL
  | cons args rest ih =>
    exact ih _ (allRecords_step P L args hL (hP args (List.mem_cons_self _ _)))
      (fun a ha => hP a (List.mem_cons_of_mem _ ha))

theorem allRecords_init (P : ThoughtData → Prop) : Ledger.init.AllRecords P := by
  constructor
  · intro r h
    simp [Ledger.init] at h
  · intro kv h
    simp [Ledger.init] at h

/-- A map that passes validation has its four required fields. -/
theorem required_of_validate_none {args : Args} (h : (validateThoughtData args).2 = none) :
    ∃ thought n t b, RequiredAre args thought n t b := by
  rcases requiredFieldFails_or_required args with hf | h'
  · obtain ⟨e, he⟩ := validateThoughtData_of_fails hf
    rw [h] at he
    cases he
  · exact h'

/-- The stored record never has its total below its own number. -/
theorem recordOf_number_le_total (args : Args) :
    (recordOf args).ThoughtNumber ≤ (recordOf args).TotalThoughts := by
  unfold recordOf normalize
  exact le_max_right _ _

/-- Counterexample to C13 as stated: a submission with `thoughtNumber` 0 and
`totalThoughts` 0 is accepted, stored as it is and echoed in the summary. -/
theorem zero_thoughtNumber_is_stored :
    (processThought Ledger.init zeroNumbers).result =
        successPayload (jsonText (summary 0 0 false [] 1)) ∧
      (runCalls Ledger.init [zeroNumbers]).thoughtHistory.map
          (fun r => (r.ThoughtNumber, r.TotalThoughts)) = [(0, 0)] ∧
      ¬ ∀ r ∈ (runCalls Ledger.init [zeroNumbers]).thoughtHistory,
          0 < r.ThoughtNumber ∧ 0 < r.TotalThoughts := by
  refine ⟨by decide, by decide, ?_⟩
  intro h
  have h0 := h (recordOf zeroNumbers) (by decide)
  exact absurd h0.1 (by decide)

/-- Claim C13, amended. The numbers are stored as supplied, without a positivity
check. In every ledger reached from the empty ledger by calls whose supplied
`thoughtNumber` converts to a positive integer, every record in the history and
in every branch bucket has `thoughtNumber > 0` and `totalThoughts > 0` (whatever
`totalThoughts` was supplied), and every successful summary of such a call
reports positive `thoughtNumber` and `totalThoughts`. -/
theorem positive_when_thoughtNumber_positive (calls : List Args)
    (hpos : ∀ args ∈ calls, ∀ n, args.index "thoughtNumber" = some (JVal.num n) →
      0 < goInt n) :
    (∀ r ∈ (runCalls Ledger.init calls).thoughtHistory,
        0 < r.ThoughtNumber ∧ 0 < r.TotalThoughts) ∧
      (∀ k bucket, (runCalls Ledger.init calls).branches.lookup k = some bucket →
        ∀ r ∈ bucket, 0 < r.ThoughtNumber ∧ 0 < r.TotalThoughts) ∧
      ∀ (L : Ledger) (args : Args), args ∈ calls →
        (processThought L args).result.IsError ≠ some true →
        ∃ N T next names len,
          (processThought L args).result =
            successPayload (jsonText (summary N T next names len)) ∧ 0 < N ∧ 0 < T := by
  have hrec : ∀ args ∈ calls, (validateThoughtData args).2 = none →
      0 < (recordOf args).ThoughtNumber ∧ 0 < (recordOf args).TotalThoughts := by
    intro args hmem hv
    obtain ⟨thought, n, t, b, hr⟩ := required_of_validate_none hv
    have hn := hpos args hmem n hr.2.2.1
    have hN : (recordOf args).ThoughtNumber = goInt n := by
      rw [recordOf_of_required hr]; rfl
    have hle := recordOf_number_le_total args
    rw [hN] at hle ⊢
    exact ⟨hn, lt_of_lt_of_le hn hle⟩
  have hall := allRecords_runCalls (fun r => 0 < r.ThoughtNumber ∧ 0 < r.TotalThoughts)
    Ledger.init calls (allRecords_init _) hrec
  refine ⟨hall.1, ?_, ?_⟩
  · intro k bucket hk r hr
    exact hall.2 (k, bucket) (mem_of_lookup_eq_some _ k bucket hk) r hr
  · intro L args hmem hok
    rcases processThought_cases L args with ⟨e, -, hp⟩ | ⟨hv, hp⟩
    · rw [hp] at hok
      exact absurd rfl hok
    · rw [hp]
      exact ⟨_, _, _, _, _, rfl, hrec args hmem hv⟩

/-- Witness for C13: `step2` supplies thought number 5 and total 3, and branchB1
is filed under "b1"; all stored numbers are positive. -/
theorem positive_when_thoughtNumber_positive_witness :
    (∀ args ∈ [step2, branchB1], ∀ n, args.index "thoughtNumber" = some (JVal.num n) →
        0 < goInt n) ∧
      ((∀ r ∈ (runCalls Ledger.init [step2, branchB1]).thoughtHistory,
          0 < r.ThoughtNumber ∧ 0 < r.TotalThoughts) ∧
        (∀ k bucket, (runCalls Ledger.init [step2, branchB1]).branches.lookup k = some bucket →
          ∀ r ∈ bucket, 0 < r.ThoughtNumber ∧ 0 < r.TotalThoughts) ∧
        ∀ (L : Ledger) (args : Args), args ∈ [step2, branchB1] →
          (processThought L args).result.IsError ≠ some true →
          ∃ N T next names len,
            (processThought L args).result =
              successPayload (jsonText (summary N T next names len)) ∧ 0 < N ∧ 0 < T) ∧
      (runCalls Ledger.init [step2, branchB1]).thoughtHistory.map
        (fun r => (r.ThoughtNumber, r.TotalThoughts)) = [(5, 5), (3, 4)] := by
  have hpos : ∀ args ∈ [step2, branchB1], ∀ n,
      args.index "thoughtNumber" = some (JVal.num n) → 0 < goInt n := by
    intro args hmem n hn
    simp only [List.mem_cons, List.mem_singleton, List.not_mem_nil, or_false] at hmem
    rcases hmem with rfl | rfl
    · have h5 : Args.index step2 "thoughtNumber" = some (JVal.num 5) := rfl
      rw [h5] at hn
      injection hn with hn
      injection hn with hn
      subst hn
      decide
    · have h3 : Args.index branchB1 "thoughtNumber" = some (JVal.num 3) := rfl
      rw [h3] at hn
      injection hn with hn
      injection hn with hn
      subst hn
      decide
  exact ⟨hpos, positive_when_thoughtNumber_positive [step2, branchB1] hpos, by decide⟩

/-- Counterexample to C16 as stated: after a submission with `thoughtNumber` 5, a
submission with `thoughtNumber` 1 and `totalThoughts` 3 is stored and reported
with total 3, below the thought number 5 already in the history. -/
theorem later_total_below_earlier_number :
    (runCalls Ledger.init [step2, step1]).thoughtHistory.map
        (fun r => (r.ThoughtNumber, r.TotalThoughts)) = [(5, 5), (1, 3)] ∧
      (processThought (runCalls Ledger.init [step2]) step1).result =
        successPayload (jsonText (summary 1 3 true [] 2)) ∧
      ¬ ∀ r ∈ (runCalls Ledger.init [step2, step1]).thoughtHistory, r.ThoughtNumber ≤ 3 := by
  refine ⟨by decide, by decide, ?_⟩
  intro h
  have h5 := h (recordOf step2) (by decide)
  exact absurd h5 (by decide)

/-- Claim C16, amended. The estimate is a lower bound for the submission's own
sequence number only: in every ledger reachable from the empty ledger, every
record in the history and in every branch bucket has `totalThoughts` at least its
own `thoughtNumber`, and every successful summary reports a `totalThoughts` at
least the `thoughtNumber` it reports. Earlier records are not consulted. -/
theorem total_bounds_own_thoughtNumber (calls : List Args) :
    (∀ r ∈ (runCalls Ledger.init calls).thoughtHistory, r.ThoughtNumber ≤ r.TotalThoughts) ∧
      (∀ k bucket, (runCalls Ledger.init calls).branches.lookup k = some bucket →
        ∀ r ∈ bucket, r.ThoughtNumber ≤ r.TotalThoughts) ∧
      ∀ args : Args,
        (processThought (runCalls Ledger.init calls) args).result.IsError ≠ some true →
        ∃ N T next names len,
          (processThought (runCalls Ledger.init calls) args).result =
            successPayload (jsonText (summary N T next names len)) ∧
          N = (normalize (validateThoughtData args).1).ThoughtNumber ∧
          T = (normalize (validateThoughtData args).1).TotalThoughts ∧ N ≤ T := by
  have hall := allRecords_runCalls (fun r => r.ThoughtNumber ≤ r.TotalThoughts)
    Ledger.init calls (allRecords_init _) (fun args _ _ => recordOf_number_le_total args)
  refine ⟨hall.1, ?_, ?_⟩
  · intro k bucket hk r hr
    exact hall.2 (k, bucket) (mem_of_lookup_eq_some _ k bucket hk) r hr
  · intro args hok
    rcases processThought_cases (runCalls Ledger.init calls) args with ⟨e, -, hp⟩ | ⟨hv, hp⟩
    · rw [hp] at hok
      exact absurd rfl hok
    · rw [hp]
      exact ⟨_, _, _, _, _, rfl, rfl, rfl, recordOf_number_le_total args⟩

/-- Witness for C16: after `step1`, the submission `step2` (number 5, total 3) is
reported with total 5. -/
theorem total_bounds_own_thoughtNumber_witness :
    (processThought (runCalls Ledger.init [step1]) step2).result.IsError ≠ some true ∧
      (∃ N T next names len,
        (processThought (runCalls Ledger.init [step1]) step2).result =
          successPayload (jsonText (summary N T next names len)) ∧
        N = (normalize (validateThoughtData step2).1).ThoughtNumber ∧
        T = (normalize (validateThoughtData step2).1).TotalThoughts ∧ N ≤ T) ∧
      (normalize (validateThoughtData step2).1).TotalThoughts = 5 :=
  ⟨by decide, (total_bounds_own_thoughtNumber [step1]).2.2 step2 (by decide), by decide⟩

theorem thoughtFails_iff (args : Args) :
    thoughtFails args ↔
      assertString (args.index "thought") = none ∨
        assertString (args.index "thought") = some "" := by
  unfold thoughtFails
  constructor
  · rintro (h | h | h)
    · left; rw [h]; rfl
    · left; exact assertString_eq_none.mpr h
    · right; rw [h]; rfl
  · rintro (h | h)
    · exact Or.inr (Or.inl (assertString_eq_none.mp h))
    · exact Or.inr (Or.inr (assertString_eq_some.mp h))

theorem numberFails_iff (args : Args) (key : String) :
    numberFails args key ↔ assertFloat64 (args.index key) = none := by
  unfold numberFails
  constructor
  · rintro (h | h)
    · rw [h]; rfl
    · exact assertFloat64_eq_none.mpr h
  · intro h
    exact Or.inr (assertFloat64_eq_none.mp h)

theorem booleanFails_iff (args : Args) (key : String) :
    booleanFails args key ↔ assertBool (args.index key) = none := by
  unfold booleanFails
  constructor
  · rintro (h | h)
    · rw [h]; rfl
    · exact assertBool_eq_none.mpr h
  · intro h
    exact Or.inr (assertBool_eq_none.mp h)

/-- The error that validation reports is that of the first required field, in the
order of the checks, that fails. -/
theorem validateThoughtData_first_error (args : Args) :
    (thoughtFails args →
      (validateThoughtData args).2 = some "invalid thought: must be a string") ∧
    (¬ thoughtFails args → numberFails args "thoughtNumber" →
      (validateThoughtData args).2 = some "invalid thoughtNumber: must be a number") ∧
    (¬ thoughtFails args → ¬ numberFails args "thoughtNumber" →
      numberFails args "totalThoughts" →
      (validateThoughtData args).2 = some "invalid totalThoughts: must be a number") ∧
    (¬ thoughtFails args → ¬ numberFails args "thoughtNumber" →
      ¬ numberFails args "totalThoughts" → booleanFails args "nextThoughtNeeded" →
      (validateThoughtData args).2 = some "invalid nextThoughtNeeded: must be a boolean") := by
  simp only [thoughtFails_iff, numberFails_iff, booleanFails_iff]
  unfold validateThoughtData
  cases h1 : assertString (args.index "thought") with
  | none => simp
  | some thought =>
    by_cases h1' : thought = ""
    · simp [h1']
    · cases h2 : assertFloat64 (args.index "thoughtNumber") with
      | none => simp [h1']
      | some n =>
        cases h3 : assertFloat64 (args.index "totalThoughts") with
        | none => simp [h1']
        | some t =>
          cases h4 : assertBool (args.index "nextThoughtNeeded") with
          | none => simp [h1']
          | some b => simp [h1']

/-- The payload of a call whose validation reports the error `e`. -/
theorem processThought_of_error (L : Ledger) {args : Args} {e : String}
    (h : (validateThoughtData args).2 = some e) :
    processThought L args =
      { ledger := L, result := errorPayload ("Error: " ++ e), err := none, logged := [] } := by
  rcases processThought_cases L args with ⟨e', he', hp⟩ | ⟨hv, -⟩
  · rw [h] at he'
    injection he' with he'
    rw [hp, he']
  · rw [h] at hv
    cases hv

/-- Claim C14. For every ledger and every argument map, `processThought` returns a
result together with a nil Go error, and the call is all-or-nothing: either the
result is the validation error payload and the ledger is the one before the call,
or the result is the success payload and the ledger has the normalized record
appended to the history and filed in the branches map. The encoder never reports
an error, so the payload "Failed to marshal response" is never returned. -/
theorem processThought_all_or_nothing (L : Ledger) (args : Args) :
    (processThought L args).err = none ∧
      ((∃ e, (validateThoughtData args).2 = some e ∧
          (processThought L args).result = errorPayload ("Error: " ++ e) ∧
          (processThought L args).ledger = L) ∨
        ((validateThoughtData args).2 = none ∧
          (processThought L args).result.IsError = none ∧
          (processThought L args).ledger =
            { thoughtHistory := L.thoughtHistory ++ [normalize (validateThoughtData args).1]
              branches :=
                fileRecord L.branches (normalize (validateThoughtData args).1) })) ∧
      (∀ responseData, ∃ text, marshalIndent responseData = Except.ok text) ∧
      ∀ e, (processThought L args).result ≠
        errorPayload ("Failed to marshal response: " ++ e) := by
  have hne : ∀ e e' : String, "Error: " ++ e ≠ "Failed to marshal response: " ++ e' := by
    intro e e' h
    have hd := congrArg String.data h
    simp only [String.data_append] at hd
    have hh := congrArg List.head? hd
    simp at hh
  rcases processThought_cases L args with ⟨e, he, hp⟩ | ⟨hv, hp⟩
  · rw [hp]
    refine ⟨rfl, Or.inl ⟨e, he, rfl, rfl⟩, fun d => ⟨_, marshalIndent_ok d⟩, ?_⟩
    intro e' h
    unfold errorPayload at h
    injection h with _ hc
    injection hc with hc _
    injection hc with _ ht
    injection ht with ht
    exact hne e e' ht
  · rw [hp]
    refine ⟨rfl, Or.inr ⟨hv, rfl, rfl⟩, fun d => ⟨_, marshalIndent_ok d⟩, ?_⟩
    intro e' h
    unfold errorPayload successPayload at h
    injection h with hi _
    cases hi

/-- Claim C15. A validation failure is returned as an error payload that names
the offending field: the error flag is set and the single text block reads
"Error: invalid F: ..." where F is the first of `thought`, `thoughtNumber`,
`totalThoughts`, `nextThoughtNeeded` whose check fails. -/
theorem validation_error_names_first_field (L : Ledger) (args : Args) :
    (thoughtFails args →
      (processThought L args).result =
        { IsError := some true
          Content :=
            [{ Typ := ContentType.ContentTypeText
               Text := some "Error: invalid thought: must be a string" }] }) ∧
    (¬ thoughtFails args → numberFails args "thoughtNumber" →
      (processThought L args).result =
        { IsError := some true
          Content :=
            [{ Typ := ContentType.ContentTypeText
               Text := some "Error: invalid thoughtNumber: must be a number" }] }) ∧
    (¬ thoughtFails args → ¬ numberFails args "thoughtNumber" →
      numberFails args "totalThoughts" →
      (processThought L args).result =
        { IsError := some true
          Content :=
            [{ Typ := ContentType.ContentTypeText
               Text := some "Error: invalid totalThoughts: must be a number" }] }) ∧
    (¬ thoughtFails args → ¬ numberFails args "thoughtNumber" →
      ¬ numberFails args "totalThoughts" → booleanFails args "nextThoughtNeeded" →
      (processThought L args).result =
        { IsError := some true
          Content :=
            [{ Typ := ContentType.ContentTypeText
               Text := some "Error: invalid nextThoughtNeeded: must be a boolean" }] }) := by
  obtain ⟨h1, h2, h3, h4⟩ := validateThoughtData_first_error args
  refine ⟨fun a => ?_, fun a b => ?_, fun a b c => ?_, fun a b c d => ?_⟩
  · rw [processThought_of_error L (h1 a)]
    simp only [errorPayload]
    decide
  · rw [processThought_of_error L (h2 a b)]
    simp only [errorPayload]
    decide
  · rw [processThought_of_error L (h3 a b c)]
    simp only [errorPayload]
    decide
  · rw [processThought_of_error L (h4 a b c d)]
    simp only [errorPayload]
    decide

/-- Witness for C15: `thoughtNumber` and `nextThoughtNeeded` are both missing;
the payload names `thoughtNumber`, the first of the two in the order of checks. -/
theorem validation_error_names_first_field_witness :
    (¬ thoughtFails missingTwo ∧ numberFails missingTwo "thoughtNumber" ∧
        booleanFails missingTwo "nextThoughtNeeded") ∧
      (processThought ledgerB1 missingTwo).result =
        { IsError := some true
          Content :=
            [{ Typ := ContentType.ContentTypeText
               Text := some "Error: invalid thoughtNumber: must be a number" }] } :=
  have h1 : ¬ thoughtFails missingTwo := fun h =>
    absurd ((thoughtFails_iff missingTwo).mp h) (by decide)
  have h2 : numberFails missingTwo "thoughtNumber" := Or.inl rfl
  ⟨⟨h1, h2, Or.inl rfl⟩,
    (validation_error_names_first_field ledgerB1 missingTwo).2.1 h1 h2⟩

theorem filedUnder_append (history : List ThoughtData) (r : ThoughtData) (b : String) :
    filedUnder (history ++ [r]) b =
      filedUnder history b ++
        (if (r.BranchFromThought.isSome && r.BranchId == some b) = true then [r] else []) := by
  unfold filedUnder
  rw [List.filter_append]
  congr 1
  by_cases h : (r.BranchFromThought.isSome && r.BranchId == some b) = true
  · simp only [List.filter_cons, h, if_true, List.filter_nil]
  · simp only [List.filter_cons, h, if_false, List.filter_nil]

/-- Under the invariant, reading a bucket gives the filtered history. -/
theorem index_of_bucketsMatch {L : Ledger} (h : L.BucketsMatchHistory) (b : String) :
    L.branches.index b = filedUnder L.thoughtHistory b := by
  unfold BranchMap.index
  rw [h b]
  by_cases he : filedUnder L.thoughtHistory b = []
  · rw [if_pos he, he]; rfl
  · rw [if_neg he]; rfl

/-- One call preserves the invariant that buckets are the filtered history. -/
theorem bucketsMatch_step (L : Ledger) (args : Args) (h : L.BucketsMatchHistory) :
    (processThought L args).ledger.BucketsMatchHistory := by
  rcases processThought_cases L args with ⟨e, -, hp⟩ | ⟨-, hp⟩
  · rw [hp]
    exact h
  · rw [hp]
    intro b
    show (fileRecord L.branches (recordOf args)).lookup b =
      if filedUnder (L.thoughtHistory ++ [recordOf args]) b = [] then none
      else some (filedUnder (L.thoughtHistory ++ [recordOf args]) b)
    rw [filedUnder_append]
    unfold fileRecord
    cases hF : (recordOf args).BranchFromThought with
    | none =>
      simp only [Option.isSome_none, Bool.false_and, Bool.false_eq_true, if_false,
        List.append_nil]
      exact h b
    | some n =>
      cases hI : (recordOf args).BranchId with
      | none =>
        have hf : (Option.isSome (some n) && ((none : Option String) == some b)) = false := by
          simp
        simp only [hf, Bool.false_eq_true, if_false, List.append_nil]
        exact h b
      | some b0 =>
        show (appendToBranch L.branches b0 (recordOf args)).lookup b = _
        unfold appendToBranch
        by_cases hb : b = b0
        · subst hb
          have ht : (Option.isSome (some n) && (some b == some b)) = true := by simp
          rw [lookup_assign_self, if_pos ht, index_of_bucketsMatch h b, if_neg]
          simp
        · have hf : (Option.isSome (some n) && (some b0 == some b)) = false := by
            have hne : ¬ b0 = b := fun e => hb e.symm
            simp [hne]
          rw [lookup_assign_ne _ _ hb]
          simp only [hf, Bool.false_eq_true, if_false, List.append_nil]
          exact h b

theorem bucketsMatch_runCalls (L : Ledger) (calls : List Args) (h : L.BucketsMatchHistory) :
    (runCalls L calls).BucketsMatchHistory := by
  induction calls generalizing L with
  | nil => exact h
  | cons args rest ih => exact ih _ (bucketsMatch_step L args h)

theorem bucketsMatch_init : Ledger.init.BucketsMatchHistory := by
  intro b
  rfl

theorem mem_filedUnder (history : List ThoughtData) (b : String) (r : ThoughtData) :
    r ∈ filedUnder history b ↔
      r ∈ history ∧ r.BranchFromThought.isSome = true ∧ r.BranchId = some b := by
  unfold filedUnder
  simp [List.mem_filter]

/-- Claim C17. In every ledger reachable from the empty ledger by `processThought`
calls, the bucket under every key b is, in order, the subsequence of the history
made of the records that have `branchFromThought` set and `branchId` equal to b.
Hence every bucket is non-empty, every bucketed record occurs in the history with
its `branchId` equal to the key of its bucket, and the keys are exactly the
branch ids of the history records that carry both branch fields. -/
theorem buckets_are_filtered_history (calls : List Args) :
    (∀ b bucket, (runCalls Ledger.init calls).branches.lookup b = some bucket →
        bucket = (runCalls Ledger.init calls).thoughtHistory.filter
            (fun r => r.BranchFromThought.isSome && r.BranchId == some b) ∧
          bucket ≠ [] ∧
          ∀ r ∈ bucket, r ∈ (runCalls Ledger.init calls).thoughtHistory ∧
            r.BranchFromThought.isSome = true ∧ r.BranchId = some b) ∧
      ∀ b, b ∈ getBranchNames (runCalls Ledger.init calls).branches ↔
        ∃ r ∈ (runCalls Ledger.init calls).thoughtHistory,
          r.BranchFromThought.isSome = true ∧ r.BranchId = some b := by
  have hinv := bucketsMatch_runCalls Ledger.init calls bucketsMatch_init
  constructor
  · intro b bucket hb
    have h := hinv b
    rw [hb] at h
    by_cases he : filedUnder (runCalls Ledger.init calls).thoughtHistory b = []
    · rw [if_pos he] at h
      cases h
    · rw [if_neg he] at h
      injection h with h
      subst h
      refine ⟨rfl, he, fun r hr => (mem_filedUnder _ _ _).mp hr⟩
  · intro b
    rw [mem_getBranchNames, hinv b]
    by_cases he : filedUnder (runCalls Ledger.init calls).thoughtHistory b = []
    · rw [if_pos he]
      constructor
      · intro h
        cases h
      · rintro ⟨r, hr, hF, hI⟩
        have hm : r ∈ filedUnder (runCalls Ledger.init calls).thoughtHistory b :=
          (mem_filedUnder _ _ _).mpr ⟨hr, hF, hI⟩
        rw [he] at hm
        cases hm
    · rw [if_neg he]
      constructor
      · intro _
        obtain ⟨r, hr⟩ := List.exists_mem_of_ne_nil _ he
        exact ⟨r, (mem_filedUnder _ _ _).mp hr⟩
      · intro _
        rfl

/-- Witness for C17: after `step1` and two submissions under "b1", the bucket of
"b1" holds the second and third history entries. -/
theorem buckets_are_filtered_history_witness :
    (runCalls Ledger.init [step1, branchB1, branchB1]).branches.lookup "b1" =
        some [recordOf branchB1, recordOf branchB1] ∧
      ([recordOf branchB1, recordOf branchB1] =
          (runCalls Ledger.init [step1, branchB1, branchB1]).thoughtHistory.filter
            (fun r => r.BranchFromThought.isSome && r.BranchId == some "b1") ∧
        [recordOf branchB1, recordOf branchB1] ≠ [] ∧
        ∀ r ∈ [recordOf branchB1, recordOf branchB1],
          r ∈ (runCalls Ledger.init [step1, branchB1, branchB1]).thoughtHistory ∧
            r.BranchFromThought.isSome = true ∧ r.BranchId = some "b1") ∧
      (runCalls Ledger.init [step1, branchB1, branchB1]).thoughtHistory =
        [recordOf step1, recordOf branchB1, recordOf branchB1] :=
  ⟨by decide,
    (buckets_are_filtered_history [step1, branchB1, branchB1]).1 "b1"
      [recordOf branchB1, recordOf branchB1] (by decide),
    by decide⟩

theorem getBranchNames_assign (m : BranchMap) (k : String) (v : List ThoughtData) :
    getBranchNames (m.assign k v) =
      if (m.lookup k).isSome then getBranchNames m else getBranchNames m ++ [k] := by
  unfold BranchMap.assign getBranchNames
  by_cases h : (m.lookup k).isSome = true
  · rw [if_pos h, if_pos h, List.map_map]
    congr 1
    funext kv
    by_cases hk : kv.1 = k <;> simp [hk]
  · rw [if_neg h, if_neg h, List.map_append]
    rfl

theorem index_assign (m : BranchMap) (k k' : String) (v : List ThoughtData) :
    (m.assign k v).index k' = if k' = k then v else m.index k' := by
  unfold BranchMap.index
  by_cases h : k' = k
  · subst h
    rw [lookup_assign_self, if_pos rfl]
    rfl
  · rw [lookup_assign_ne _ _ h, if_neg h]

/-- Filing depends on the record only through its two branch fields, as far as
key names and bucket lengths go. -/
theorem fileRecord_shape (m : BranchMap) (r r' : ThoughtData)
    (hF : r.BranchFromThought = r'.BranchFromThought) (hI : r.BranchId = r'.BranchId) :
    getBranchNames (fileRecord m r) = getBranchNames (fileRecord m r') ∧
      ∀ k, ((fileRecord m r).index k).length = ((fileRecord m r').index k).length := by
  unfold fileRecord
  rw [← hF, ← hI]
  cases r.BranchFromThought with
  | none => exact ⟨rfl, fun _ => rfl⟩
  | some n =>
    cases r.BranchId with
    | none => exact ⟨rfl, fun _ => rfl⟩
    | some b =>
      show getBranchNames (appendToBranch m b r) = getBranchNames (appendToBranch m b r') ∧
        ∀ k, ((appendToBranch m b r).index k).length = ((appendToBranch m b r').index k).length
      unfold appendToBranch
      refine ⟨by rw [getBranchNames_assign, getBranchNames_assign], fun k => ?_⟩
      rw [index_assign, index_assign]
      by_cases hk : k = b
      · rw [if_pos hk, if_pos hk]
        simp
      · rw [if_neg hk, if_neg hk]

theorem numberFails_congr {args args' : Args} {key : String} (h : agreeOn args args' key) :
    numberFails args key ↔ numberFails args' key := by
  unfold numberFails
  unfold agreeOn at h
  rw [h]

theorem booleanFails_congr {args args' : Args} {key : String} (h : agreeOn args args' key) :
    booleanFails args key ↔ booleanFails args' key := by
  unfold booleanFails
  unfold agreeOn at h
  rw [h]

theorem not_thoughtFails_of_text {args : Args} {s : String}
    (hs : args.index "thought" = some (JVal.str s)) (hne : s ≠ "") : ¬ thoughtFails args := by
  intro h
  rcases (thoughtFails_iff args).mp h with h | h
  · rw [hs] at h
    cases h
  · rw [hs] at h
    injection h with h
    exact hne h

/-- Two maps with a usable `thought` that agree on the three other required fields
get the same validation error, if any. -/
theorem validate_error_congr {args args' : Args} {s s' : String}
    (hs : args.index "thought" = some (JVal.str s)) (hne : s ≠ "")
    (hs' : args'.index "thought" = some (JVal.str s')) (hne' : s' ≠ "")
    (h1 : agreeOn args args' "thoughtNumber") (h2 : agreeOn args args' "totalThoughts")
    (h3 : agreeOn args args' "nextThoughtNeeded") :
    (validateThoughtData args).2 = (validateThoughtData args').2 := by
  have ht := not_thoughtFails_of_text hs hne
  have ht' := not_thoughtFails_of_text hs' hne'
  obtain ⟨-, a2, a3, a4⟩ := validateThoughtData_first_error args
  obtain ⟨-, b2, b3, b4⟩ := validateThoughtData_first_error args'
  by_cases c1 : numberFails args "thoughtNumber"
  · rw [a2 ht c1, b2 ht' ((numberFails_congr h1).mp c1)]
  · have c1' : ¬ numberFails args' "thoughtNumber" := fun h => c1 ((numberFails_congr h1).mpr h)
    by_cases c2 : numberFails args "totalThoughts"
    · rw [a3 ht c1 c2, b3 ht' c1' ((numberFails_congr h2).mp c2)]
    · have c2' : ¬ numberFails args' "totalThoughts" :=
        fun h => c2 ((numberFails_congr h2).mpr h)
      by_cases c3 : booleanFails args "nextThoughtNeeded"
      · rw [a4 ht c1 c2 c3, b4 ht' c1' c2' ((booleanFails_congr h3).mp c3)]
      · have c3' : ¬ booleanFails args' "nextThoughtNeeded" :=
          fun h => c3 ((booleanFails_congr h3).mpr h)
        have hv : ∀ a : Args, ¬ thoughtFails a → ¬ numberFails a "thoughtNumber" →
            ¬ numberFails a "totalThoughts" → ¬ booleanFails a "nextThoughtNeeded" →
            (validateThoughtData a).2 = none := by
          intro a x1 x2 x3 x4
          rcases requiredFieldFails_or_required a with hf | ⟨th, n, t, b, hr⟩
          · rcases hf with hf | hf | hf | hf
            · exact absurd hf x1
            · exact absurd hf x2
            · exact absurd hf x3
            · exact absurd hf x4
          · rw [validateThoughtData_of_required hr]
        rw [hv args ht c1 c2 c3, hv args' ht' c1' c2' c3']

/-- The ledger a call leaves does not depend on the order of the range. -/
theorem processThoughtIn_ledger (rangeKeys : BranchMap → List String) (L : Ledger)
    (args : Args) :
    (processThoughtIn rangeKeys L args).ledger = (processThought L args).ledger := by
  rcases requiredFieldFails_or_required args with hf | ⟨thought, n, t, b, hr⟩
  · obtain ⟨e, he, hp⟩ := processThought_of_fails L hf
    rw [hp, processThoughtIn_of_error rangeKeys L he]
  · rw [processThought_of_required L hr, processThoughtIn_of_required rangeKeys L hr]

/-- Counterexample to C18 as stated: on a ledger with the two branches "b1" and
"b2", the submissions `twinA` and `twinB` agree on all five fields, yet when the
range over the branches visits the keys first to last in one call and last to
first in the other, the two payloads differ in the order of the `branches` list.
The same happens to one and the same submission made under the two orders. -/
theorem branch_order_changes_payload :
    IsRangeOrder getBranchNames ∧ IsRangeOrder reverseOrder ∧
      (agreeOn twinA twinB "thoughtNumber" ∧ agreeOn twinA twinB "totalThoughts" ∧
        agreeOn twinA twinB "nextThoughtNeeded" ∧ agreeOn twinA twinB "branchFromThought" ∧
        agreeOn twinA twinB "branchId") ∧
      (processThoughtIn getBranchNames ledgerB12 twinA).result =
        successPayload (jsonText (summary 2 4 true ["b1", "b2"] 3)) ∧
      (processThoughtIn reverseOrder ledgerB12 twinB).result =
        successPayload (jsonText (summary 2 4 true ["b2", "b1"] 3)) ∧
      (processThoughtIn getBranchNames ledgerB12 twinA).result ≠
        (processThoughtIn reverseOrder ledgerB12 twinB).result ∧
      (processThoughtIn getBranchNames ledgerB12 twinA).result ≠
        (processThoughtIn reverseOrder ledgerB12 twinA).result :=
  ⟨fun _ => List.Perm.refl _, fun _ => List.reverse_perm _, ⟨rfl, rfl, rfl, rfl, rfl⟩,
    by decide, by decide, by decide, by decide⟩

/-- Claim C18, amended. The summary and the shape of the ledger update do not
depend on the text of the thought nor on the revision and hint fields, up to the
order of the `branches` list: for every ledger, every two argument maps that both
have a non-empty string `thought` and agree on `thoughtNumber`, `totalThoughts`,
`nextThoughtNeeded`, `branchFromThought` and `branchId`, and every two orders in
which the range over the branches may visit the keys, the two results are either
the same error payload or two summaries with the same `thoughtNumber`,
`totalThoughts`, `nextThoughtNeeded` and `thoughtHistoryLength` whose `branches`
lists hold the same ids (one a rearrangement of the other); the results are
identical whenever the two ranges return the ids in the same order; and the two
ledgers have the same history length, the same branch keys and the same bucket
lengths. -/
theorem summary_independent_up_to_branch_order (rangeKeys rangeKeys' : BranchMap → List String)
    (hord : IsRangeOrder rangeKeys) (hord' : IsRangeOrder rangeKeys')
    (L : Ledger) (args args' : Args) (s s' : String)
    (hs : args.index "thought" = some (JVal.str s)) (hne : s ≠ "")
    (hs' : args'.index "thought" = some (JVal.str s')) (hne' : s' ≠ "")
    (h1 : agreeOn args args' "thoughtNumber") (h2 : agreeOn args args' "totalThoughts")
    (h3 : agreeOn args args' "nextThoughtNeeded")
    (h4 : agreeOn args args' "branchFromThought") (h5 : agreeOn args args' "branchId") :
    ((∃ e, (processThoughtIn rangeKeys L args).result = errorPayload ("Error: " ++ e) ∧
          (processThoughtIn rangeKeys' L args').result = errorPayload ("Error: " ++ e)) ∨
        (∃ N T next len names names',
          (processThoughtIn rangeKeys L args).result =
            successPayload (jsonText (summary N T next names len)) ∧
          (processThoughtIn rangeKeys' L args').result =
            successPayload (jsonText (summary N T next names' len)) ∧
          names = getBranchNamesIn rangeKeys (processThoughtIn rangeKeys L args).ledger.branches ∧
          names' =
            getBranchNamesIn rangeKeys' (processThoughtIn rangeKeys' L args').ledger.branches ∧
          names.Perm names' ∧ ∀ k, k ∈ names ↔ k ∈ names')) ∧
      (getBranchNamesIn rangeKeys (processThoughtIn rangeKeys L args).ledger.branches =
          getBranchNamesIn rangeKeys' (processThoughtIn rangeKeys' L args').ledger.branches →
        (processThoughtIn rangeKeys L args).result =
          (processThoughtIn rangeKeys' L args').result) ∧
      (processThoughtIn rangeKeys L args).ledger.thoughtHistory.length =
        (processThoughtIn rangeKeys' L args').ledger.thoughtHistory.length ∧
      (∀ k, ((processThoughtIn rangeKeys L args).ledger.branches.lookup k).isSome =
        ((processThoughtIn rangeKeys' L args').ledger.branches.lookup k).isSome) ∧
      ∀ k, ((processThoughtIn rangeKeys L args).ledger.branches.index k).length =
        ((processThoughtIn rangeKeys' L args').ledger.branches.index k).length := by
  have hverr := validate_error_congr hs hne hs' hne' h1 h2 h3
  have hkeys : ∀ m m' : BranchMap, getBranchNames m = getBranchNames m' →
      ∀ k, (m.lookup k).isSome = (m'.lookup k).isSome := by
    intro m m' hm k
    have e1 := mem_getBranchNames m k
    have e2 := mem_getBranchNames m' k
    rw [hm] at e1
    cases ha : (m.lookup k).isSome <;> cases hb : (m'.lookup k).isSome <;> simp_all
  rcases processThought_cases L args with ⟨e, he, -⟩ | ⟨hv, -⟩
  · have he' : (validateThoughtData args').2 = some e := by rw [← hverr, he]
    rw [processThoughtIn_of_error rangeKeys L he, processThoughtIn_of_error rangeKeys' L he']
    exact ⟨Or.inl ⟨e, rfl, rfl⟩, fun _ => rfl, rfl, fun _ => rfl, fun _ => rfl⟩
  · have hv' : (validateThoughtData args').2 = none := by rw [← hverr, hv]
    obtain ⟨th, n, t, b, hr⟩ := required_of_validate_none hv
    obtain ⟨th', n', t', b', hr'⟩ := required_of_validate_none hv'
    unfold agreeOn at h1 h2 h3 h4 h5
    have en : n' = n := by
      have h := hr'.2.2.1
      rw [← h1, hr.2.2.1] at h
      injection h with h
      injection h with h
      exact h.symm
    have et : t' = t := by
      have h := hr'.2.2.2.1
      rw [← h2, hr.2.2.2.1] at h
      injection h with h
      injection h with h
      exact h.symm
    have eb : b' = b := by
      have h := hr'.2.2.2.2
      rw [← h3, hr.2.2.2.2] at h
      injection h with h
      injection h with h
      exact h.symm
    subst en et eb
    have hN : (recordOf args).ThoughtNumber = (recordOf args').ThoughtNumber := by
      rw [recordOf_of_required hr, recordOf_of_required hr']; rfl
    have hT : (recordOf args).TotalThoughts = (recordOf args').TotalThoughts := by
      rw [recordOf_of_required hr, recordOf_of_required hr']; rfl
    have hX : (recordOf args).NextThoughtNeeded = (recordOf args').NextThoughtNeeded := by
      rw [recordOf_of_required hr, recordOf_of_required hr']; rfl
    have hF : (recordOf args).BranchFromThought = (recordOf args').BranchFromThought := by
      rw [recordOf_of_required hr, recordOf_of_required hr']
      show Option.map goInt (assertFloat64 (args.index "branchFromThought")) =
        Option.map goInt (assertFloat64 (args'.index "branchFromThought"))
      rw [h4]
    have hI : (recordOf args).BranchId = (recordOf args').BranchId := by
      rw [recordOf_of_required hr, recordOf_of_required hr']
      show assertString (args.index "branchId") = assertString (args'.index "branchId")
      rw [h5]
    obtain ⟨hnames, hlens⟩ := fileRecord_shape L.branches (recordOf args) (recordOf args') hF hI
    have hperm : (rangeKeys (fileRecord L.branches (recordOf args))).Perm
        (rangeKeys' (fileRecord L.branches (recordOf args'))) := by
      have p1 := hord (fileRecord L.branches (recordOf args))
      have p2 := hord' (fileRecord L.branches (recordOf args'))
      have hn : List.map Prod.fst (fileRecord L.branches (recordOf args)) =
          List.map Prod.fst (fileRecord L.branches (recordOf args')) := hnames
      rw [hn] at p1
      exact p1.trans p2.symm
    rw [processThoughtIn_of_required rangeKeys L hr,
      processThoughtIn_of_required rangeKeys' L hr']
    simp only [getBranchNamesIn_eq]
    refine ⟨Or.inr ⟨_, _, _, _, _, _, rfl, ?_, rfl, rfl, hperm, fun k => hperm.mem_iff⟩, ?_, ?_,
      hkeys _ _ hnames, hlens⟩
    · rw [hN, hT, hX]
    · intro hsame
      rw [hN, hT, hX, hsame]
    · simp

/-- Witness for C18: `twinA` and `twinB` on the ledger with two branches, the
first call ranging over the keys first to last and the second last to first. -/
theorem summary_independent_up_to_branch_order_witness :
    ((∃ e, (processThoughtIn getBranchNames ledgerB12 twinA).result =
            errorPayload ("Error: " ++ e) ∧
          (processThoughtIn reverseOrder ledgerB12 twinB).result =
            errorPayload ("Error: " ++ e)) ∨
        (∃ N T next len names names',
          (processThoughtIn getBranchNames ledgerB12 twinA).result =
            successPayload (jsonText (summary N T next names len)) ∧
          (processThoughtIn reverseOrder ledgerB12 twinB).result =
            successPayload (jsonText (summary N T next names' len)) ∧
          names = getBranchNamesIn getBranchNames
            (processThoughtIn getBranchNames ledgerB12 twinA).ledger.branches ∧
          names' = getBranchNamesIn reverseOrder
            (processThoughtIn reverseOrder ledgerB12 twinB).ledger.branches ∧
          names.Perm names' ∧ ∀ k, k ∈ names ↔ k ∈ names')) ∧
      (processThoughtIn getBranchNames ledgerB12 twinA).ledger.thoughtHistory.length =
        (processThoughtIn reverseOrder ledgerB12 twinB).ledger.thoughtHistory.length ∧
      (∀ k, ((processThoughtIn getBranchNames ledgerB12 twinA).ledger.branches.index k).length =
        ((processThoughtIn reverseOrder ledgerB12 twinB).ledger.branches.index k).length) ∧
      (processThoughtIn getBranchNames ledgerB12 twinA).ledger ≠
        (processThoughtIn reverseOrder ledgerB12 twinB).ledger ∧
      getBranchNamesIn getBranchNames
          (processThoughtIn getBranchNames ledgerB12 twinA).ledger.branches = ["b1", "b2"] ∧
      getBranchNamesIn reverseOrder
          (processThoughtIn reverseOrder ledgerB12 twinB).ledger.branches = ["b2", "b1"] :=
  have h := summary_independent_up_to_branch_order getBranchNames reverseOrder
    (fun _ => List.Perm.refl _) (fun _ => List.reverse_perm _) ledgerB12 twinA twinB
    "first wording" "second wording" rfl (by decide) rfl (by decide) rfl rfl rfl rfl rfl
  ⟨h.1, h.2.2.1, h.2.2.2.2, by decide, by decide, by decide⟩

/-- Claim C19. For every request whose arguments are a map: when the tool name is
"sequentialthinking", `Call` returns the result and the Go error of
`processThought` on those arguments and leaves the ledger that `processThought`
leaves; for every other tool name it returns an error payload with the single
text block "Unknown tool " followed by the name and a nil Go error, and leaves
`thoughtHistory` and `branches` unchanged. -/
theorem call_dispatch (sprint : Args → String) (L : Ledger) (name : String) (args : Args) :
    (name = "sequentialthinking" →
      ∃ o, Call sprint L { Params := { Name := name, Arguments := JVal.obj args } } = some o ∧
        o.result = (processThought L args).result ∧
        o.err = (processThought L args).err ∧
        o.ledger = (processThought L args).ledger) ∧
    (name ≠ "sequentialthinking" →
      ∃ o, Call sprint L { Params := { Name := name, Arguments := JVal.obj args } } = some o ∧
        o.result =
          { IsError := some true
            Content :=
              [{ Typ := ContentType.ContentTypeText, Text := some ("Unknown tool " ++ name) }] } ∧
        o.err = none ∧
        o.ledger.thoughtHistory = L.thoughtHistory ∧
        o.ledger.branches = L.branches) := by
  constructor
  · intro h
    have hn : name = SequentialThinkingToolName := h
    refine ⟨{ processThought L args with
        logged := ("Args: " ++ sprint args) :: (processThought L args).logged },
      ?_, rfl, rfl, rfl⟩
    show (if name = SequentialThinkingToolName then _ else _) = _
    rw [if_pos hn]
  · intro h
    have hn : ¬ name = SequentialThinkingToolName := h
    refine ⟨{ ledger := L
              result :=
                { IsError := some true
                  Content :=
                    [{ Typ := ContentType.ContentTypeText
                       Text := some ("Unknown tool " ++ name) }] }
              err := none
              logged := ["Args: " ++ sprint args] },
      ?_, rfl, rfl, rfl, rfl⟩
    show (if name = SequentialThinkingToolName then _ else _) = _
    rw [if_neg hn]

/-- Witness for C19: the same arguments sent to "sequentialthinking" and to an
unknown tool name. -/
theorem call_dispatch_witness :
    (∃ o, Call (fun _ => "") ledgerB1
          { Params := { Name := "sequentialthinking", Arguments := JVal.obj step1 } } = some o ∧
        o.result = (processThought ledgerB1 step1).result ∧
        o.err = (processThought ledgerB1 step1).err ∧
        o.ledger = (processThought ledgerB1 step1).ledger) ∧
      (∃ o, Call (fun _ => "") ledgerB1
          { Params := { Name := "other", Arguments := JVal.obj step1 } } = some o ∧
        o.result =
          { IsError := some true
            Content :=
              [{ Typ := ContentType.ContentTypeText, Text := some ("Unknown tool " ++ "other") }] } ∧
        o.err = none ∧
        o.ledger.thoughtHistory = ledgerB1.thoughtHistory ∧
        o.ledger.branches = ledgerB1.branches) ∧
      "sequentialthinking" = SequentialThinkingToolName :=
  ⟨(call_dispatch (fun _ => "") ledgerB1 "sequentialthinking" step1).1 rfl,
    (call_dispatch (fun _ => "") ledgerB1 "other" step1).2 (by decide), rfl⟩

end SequentialThinking
